import Mathlib

/-!
# Rake ingestion pipeline: a shallow embedding with verified properties

This file embeds the core data model and algorithms of the Rake ingestion
pipeline (a five-stage document pipeline: fetch, clean, chunk, embed, store)
and proves or refutes a fixed list of specification claims about it.

Conventions of the embedding:

* Python strings are modelled as `List Char`.
* Python floats appearing only as dimension-less payloads (embedding vector
  components, backoff delays) are modelled as `ℚ`.
* Python exceptions are modelled by the `PyErr` inductive; fallible
  operations return `Except PyErr α`.
* Wall-clock timestamps are modelled as `Option Unit`: only presence or
  absence of a timestamp is relevant to any claim.
* External capabilities (the embedding provider, the SQL engine, the HTTP
  client, `unicodedata.normalize`) are either parameters of the embedded
  functions or, where a claim never exercises them, noted in the relevant
  doc comment.
-/

namespace Rake

/-- Error kinds raised by the pipeline code.  `validationError` models the
adapter-level `ValidationError`, `fetchError` the adapter-level `FetchError`,
`indexError` a Python `IndexError`, `valueError` a pydantic/`ValueError`
validation failure, and `otherError` any remaining exception. -/
inductive PyErr where
  | validationError (msg : List Char)
  | fetchError (msg : List Char)
  | indexError
  | valueError (msg : List Char)
  | otherError (msg : List Char)
deriving DecidableEq, Repr

/-- Stage-level errors (`FetchStageError`, `CleanStageError`, … in the
source): each stage catches the exceptions of its body and re-raises a
stage-tagged error that fails the whole job. -/
inductive StageErr where
  | fetch (msg : List Char)
  | clean (msg : List Char)
  | chunk (msg : List Char)
  | embed (msg : List Char)
  | store (msg : List Char)
deriving DecidableEq, Repr

/-- `models.document.ProcessingStatus`. -/
inductive ProcessingStatus where
  | pending | fetching | cleaning | chunking | embedding | storing
  | completed | failed | cancelled | retrying
deriving DecidableEq, Repr

/-- A status is terminal when the job never leaves it again. -/
def ProcessingStatus.isTerminal : ProcessingStatus → Bool
  | .completed => true
  | .failed => true
  | .cancelled => true
  | _ => false

/-! ## Python string primitives -/

/-- The characters Python `str.strip()` removes (those with
`str.isspace() = True`). -/
def pyWsChars : List Char :=
  [' ', '\t', '\n', '\x0B', '\x0C', '\r',
   '\x1C', '\x1D', '\x1E', '\x1F', '\x85', '\xA0',
   '\u1680', '\u2000', '\u2001', '\u2002', '\u2003', '\u2004', '\u2005',
   '\u2006', '\u2007', '\u2008', '\u2009', '\u200A',
   '\u2028', '\u2029', '\u202F', '\u205F', '\u3000']

/-- Python whitespace test (`str.isspace` on a single character). -/
def isPyWs (c : Char) : Bool := c ∈ pyWsChars

/-- Python `str.strip()` on a character list. -/
def pyStrip (s : List Char) : List Char :=
  ((s.dropWhile isPyWs).reverse.dropWhile isPyWs).reverse

/-- Scanner for Python `str.split()` with no argument; `cur` is the word
being accumulated (reversed). -/
def pySplitWsGo (cur : List Char) : List Char → List (List Char)
  | [] => if cur = [] then [] else [cur.reverse]
  | c :: t =>
    if isPyWs c then
      if cur = [] then pySplitWsGo [] t else cur.reverse :: pySplitWsGo [] t
    else pySplitWsGo (c :: cur) t

/-- Python `str.split()` with no argument: split on whitespace runs and
drop empty pieces. -/
def pySplitWs (s : List Char) : List (List Char) := pySplitWsGo [] s

/-- ASCII upper-casing of one character, as Python `str.upper()` acts on
the ASCII inputs that reach the SQL guard. -/
def pyUpperChar (c : Char) : Char := c.toUpper

/-- ASCII lower-casing of one character. -/
def pyLowerChar (c : Char) : Char := c.toLower

/-- Python `str.upper()`. -/
def pyUpper (s : List Char) : List Char := s.map pyUpperChar

/-- Python `str.lower()`. -/
def pyLower (s : List Char) : List Char := s.map pyLowerChar

/-- Python `str.startswith`. -/
def pyStartsWith (s pre : List Char) : Bool := pre.isPrefixOf s

/-- Whether `sub` occurs as a contiguous run inside some suffix scan. -/
def pyContainsAux (sub : List Char) : List Char → Bool
  | [] => sub.isPrefixOf ([] : List Char)
  | c :: t => sub.isPrefixOf (c :: t) || pyContainsAux sub t

/-- Python `in` on strings (substring containment). -/
def pyContains (s sub : List Char) : Bool := pyContainsAux sub s

/-- Truth of an `Except` value, as the embedded pydantic constructors use it. -/
def isOkE : Except PyErr α → Bool
  | .ok _ => true
  | .error _ => false

/-! ## Document data model (`models/document.py`)

The pydantic models are embedded as structures together with smart
constructors performing exactly the declared field validations.  Pydantic
default factories for ids and timestamps, and the opaque `metadata`
dictionaries, carry no information any claim depends on; ids are explicit
constructor arguments and timestamps are dropped. -/

/-- `RawDocument` (after the FETCH stage). -/
structure RawDocument where
  id : List Char
  source : List Char
  url : Option (List Char) := none
  content : List Char
  tenantId : Option (List Char) := none
deriving DecidableEq, Repr

/-- `RawDocument` construction: `content` has pydantic `min_length=1` and a
validator rejecting whitespace-only content. -/
def mkRawDocument (id source : List Char) (url : Option (List Char))
    (content : List Char) (tenantId : Option (List Char)) :
    Except PyErr RawDocument :=
  if pyStrip content = [] then
    .error (.valueError "Document content cannot be empty or whitespace only".toList)
  else
    .ok ⟨id, source, url, content, tenantId⟩

/-- `CleanedDocument` (after the CLEAN stage). -/
structure CleanedDocument where
  id : List Char
  source : List Char
  content : List Char
  wordCount : Nat
  charCount : Nat
  tenantId : Option (List Char) := none
deriving DecidableEq, Repr

/-- `CleanedDocument` construction: `content` has pydantic `min_length=1`
(there is no whitespace-only validator on this model). -/
def mkCleanedDocument (id source content : List Char)
    (wordCount charCount : Nat) (tenantId : Option (List Char)) :
    Except PyErr CleanedDocument :=
  if content = [] then
    .error (.valueError "String should have at least 1 character".toList)
  else
    .ok ⟨id, source, content, wordCount, charCount, tenantId⟩

/-- `Chunk` (after the CHUNK stage).  Character offsets are stored as the
integers the chunker computes with.  The `id` is a fresh uuid at runtime;
it is modelled as the empty string (no claim observes it). -/
structure Chunk where
  id : List Char := []
  documentId : List Char
  content : List Char
  position : Int
  tokenCount : Int
  startChar : Int
  endChar : Int
  tenantId : Option (List Char) := none
deriving DecidableEq, Repr

/-- `Chunk` construction with the pydantic constraints: non-empty content,
`position ≥ 0`, `token_count ≥ 1`, `start_char ≥ 0`, `end_char > 0` and the
validator `end_char > start_char`. -/
def mkChunk (documentId content : List Char) (position tokenCount startChar endChar : Int)
    (tenantId : Option (List Char)) : Except PyErr Chunk :=
  if content = [] then
    .error (.valueError "String should have at least 1 character".toList)
  else if position < 0 then
    .error (.valueError "position must be greater than or equal to 0".toList)
  else if tokenCount < 1 then
    .error (.valueError "token_count must be greater than or equal to 1".toList)
  else if startChar < 0 then
    .error (.valueError "start_char must be greater than or equal to 0".toList)
  else if endChar ≤ 0 then
    .error (.valueError "end_char must be greater than 0".toList)
  else if endChar ≤ startChar then
    .error (.valueError "end_char must be greater than start_char".toList)
  else
    .ok ⟨[], documentId, content, position, tokenCount, startChar, endChar, tenantId⟩

/-- The slice of the per-embedding metadata dictionary the pipeline itself
writes and later reads back (`pipeline/embed.py` writes it, the store stage
reads `document_id`); the chunk metadata spread into the same dictionary is
opaque and elided. -/
structure EmbedMeta where
  documentId : List Char
  chunkPosition : Int
  embeddingDimension : Nat
deriving DecidableEq, Repr

/-- `Embedding` (after the EMBED stage). -/
structure Embedding where
  chunkId : List Char
  vector : List ℚ
  model : List Char
  meta : EmbedMeta
  tenantId : Option (List Char) := none
deriving DecidableEq, Repr

/-- `Embedding` construction.  The `validate_vector_dimensions` validator in
`models/document.py` compares the vector length against the constant
`expected_dims = 1536` for every model; pydantic `min_length=1` on the
vector is subsumed. -/
def mkEmbedding (chunkId : List Char) (vector : List ℚ) (model : List Char)
    (meta : EmbedMeta) (tenantId : Option (List Char)) : Except PyErr Embedding :=
  if vector.length = 1536 then
    .ok ⟨chunkId, vector, model, meta, tenantId⟩
  else
    .error (.valueError "Embedding vector must have 1536 dimensions".toList)

/-- `StoredDocument` (after the STORE stage); fields any claim touches. -/
structure StoredDocument where
  id : List Char
  source : List Char
  url : Option (List Char) := none
  chunkCount : Nat
  embeddingCount : Nat
  status : ProcessingStatus := .completed
  tenantId : Option (List Char) := none
deriving DecidableEq, Repr

/-- `services/embedding_service.py` (`get_embedding_dimension`): the
declared dimension of each known OpenAI embedding model, defaulting to
1536 for unknown names. -/
def declaredDimension (model : List Char) : Nat :=
  if model = "text-embedding-3-small".toList then 1536
  else if model = "text-embedding-3-large".toList then 3072
  else if model = "text-embedding-ada-002".toList then 1536
  else 1536

/-! ## Retry harness over adapter fetches (`sources/base.py`)

`BaseSourceAdapter.fetch_with_retry` is the retry wrapper the Fetch stage
applies around every adapter `fetch` (it is called with `max_attempts=3`
and the default `backoff_base=2.0`).  The attempt outcomes are a parameter
`fetchAttempt : Nat → Except PyErr α` giving the result of each (1-indexed)
call to `fetch`. -/

/-- Python `str(e)` for the embedded error kinds. -/
def errStr : PyErr → List Char
  | .validationError m => m
  | .fetchError m => m
  | .indexError => "list index out of range".toList
  | .valueError m => m
  | .otherError m => m

/-- The message of the `FetchError` raised after the final failed attempt:
`f"Failed to fetch after {max_attempts} attempts: {str(last_error)}"`. -/
def failAfterMsg (maxAttempts : Nat) (lastErr : Option PyErr) : List Char :=
  "Failed to fetch after ".toList ++ (toString maxAttempts).toList ++
    " attempts: ".toList ++ (match lastErr with
      | none => "None".toList
      | some e => errStr e)

/-- Result of a `fetch_with_retry` run: the backoff sleeps performed (in
seconds, in order), the number of `fetch` calls made, and the final
outcome. -/
structure RetryResult (α : Type) where
  sleeps : List ℚ
  attemptsMade : Nat
  outcome : Except PyErr α
deriving Repr

/-- The `for attempt in range(1, max_attempts + 1)` loop of
`fetch_with_retry`: every exception is caught alike, and when
`attempt < max_attempts` the loop sleeps `backoff_base ** attempt` before
the next attempt. -/
def fetchWithRetryGo (fetchAttempt : Nat → Except PyErr α) (backoffBase : ℚ)
    (maxAttempts : Nat) : Nat → Nat → Option PyErr → RetryResult α
  | _, 0, lastErr => ⟨[], 0, .error (.fetchError (failAfterMsg maxAttempts lastErr))⟩
  | attempt, r + 1, _ =>
    match fetchAttempt attempt with
    | .ok docs => ⟨[], 1, .ok docs⟩
    | .error e =>
      if r = 0 then
        ⟨[], 1, .error (.fetchError (failAfterMsg maxAttempts (some e)))⟩
      else
        let rest := fetchWithRetryGo fetchAttempt backoffBase maxAttempts (attempt + 1) r (some e)
        ⟨backoffBase ^ attempt :: rest.sleeps, rest.attemptsMade + 1, rest.outcome⟩

/-- `BaseSourceAdapter.fetch_with_retry`. -/
def fetchWithRetry (fetchAttempt : Nat → Except PyErr α) (maxAttempts : Nat)
    (backoffBase : ℚ) : RetryResult α :=
  fetchWithRetryGo fetchAttempt backoffBase maxAttempts 1 maxAttempts none

/-- The backoff delay prescribed by the spec (§4.2) before attempt `k+1`,
which is also the formula `utils/retry.py` implements in
`RetryableOperation.wait_before_retry`:
`min(base_delay * multiplier ** (attempt - 1), max_delay)`. -/
def specRetryDelay (baseDelay multiplier maxDelay : ℚ) (k : Nat) : ℚ :=
  min (baseDelay * multiplier ^ (k - 1)) maxDelay

/-! ## Database-query adapter guard (`sources/database_query.py`) -/

/-- The keyword deny-list of `_validate_input` (read-only mode). -/
def dangerousKeywords : List (List Char) :=
  ["DROP".toList, "DELETE".toList, "INSERT".toList,
   "UPDATE".toList, "TRUNCATE".toList, "ALTER".toList]

/-- `DatabaseQueryAdapter._validate_input`.  Inputs are `Option`s because
the Python parameters default to `None`; Python falsiness of an empty
string is the `= []` test.  Note the `IndexError` arm: when the stripped
query is empty the error message interpolation evaluates
`query_upper.split()[0]` on an empty list. -/
def dqValidateInput (readOnly : Bool)
    (connectionString query : Option (List Char)) : Except PyErr Unit :=
  let conn := connectionString.getD []
  let q := query.getD []
  if conn = [] then
    .error (.validationError "connection_string is required for database queries".toList)
  else if q = [] then
    .error (.validationError "query is required for database queries".toList)
  else if ¬ (pyStartsWith conn "postgresql://".toList ∨
      pyStartsWith conn "mysql://".toList ∨
      pyStartsWith conn "sqlite:///".toList) then
    .error (.validationError
      "Invalid connection_string. Must start with postgresql://, mysql://, or sqlite:///".toList)
  else if readOnly then
    let qU := pyUpper (pyStrip q)
    if ¬ pyStartsWith qU "SELECT".toList then
      match pySplitWs qU with
      | [] => .error .indexError
      | w :: _ => .error (.validationError
          ("Only SELECT queries allowed in read-only mode. Query starts with: ".toList ++ w))
    else
      match dangerousKeywords.find? (fun kw => pyContains qU kw) with
      | some kw => .error (.validationError
          ("Query contains forbidden keyword: ".toList ++ kw ++
           " (read-only mode enabled)".toList))
      | none => .ok ()
  else
    .ok ()

/-- The observable head of `DatabaseQueryAdapter.fetch`: did execution get
past validation to `_get_engine`?  Everything after engine creation runs
against the external SQLAlchemy engine and is outside the guard the claim
is about. -/
structure DbFetchGuard where
  engineCreated : Bool
  outcome : Except PyErr Unit
deriving Repr

/-- `DatabaseQueryAdapter.fetch` up to engine creation: `_validate_input`
runs first; only when it passes does `_get_engine` run. -/
def dqFetchGuard (readOnly : Bool)
    (connectionString query : Option (List Char)) : DbFetchGuard :=
  match dqValidateInput readOnly connectionString query with
  | .error e => ⟨false, .error e⟩
  | .ok _ => ⟨true, .ok ()⟩

/-! ## SEC EDGAR adapter constructor (`sources/sec_edgar.py`) -/

/-- Character class of the local part of `_validate_user_agent`'s email
regex: `[a-zA-Z0-9._%+-]`. -/
def isEmailLocalChar (c : Char) : Bool :=
  c.isAlpha || c.isDigit || c = '.' || c = '_' || c = '%' || c = '+' || c = '-'

/-- Character class of the domain part: `[a-zA-Z0-9.-]`. -/
def isEmailDomainChar (c : Char) : Bool :=
  c.isAlpha || c.isDigit || c = '.' || c = '-'

/-- After at least one domain character has been read: is there a `'.'`
followed by two ASCII letters, reachable through domain characters?  This
is exactly the reachability the backtracking search of
`[a-zA-Z0-9.-]+\.[a-zA-Z]@2,` explores after the `@`
(the trailing quantifier needs two letters; further letters only extend
the match). -/
def emailDomTail : List Char → Bool
  | [] => false
  | c :: rest =>
    (c = '.' && (match rest with
      | a :: b :: _ => a.isAlpha && b.isAlpha
      | _ => false)) ||
    (isEmailDomainChar c && emailDomTail rest)

/-- The part of the email pattern after `@`: one or more domain characters,
then a dot, then at least two letters. -/
def emailAfterAt : List Char → Bool
  | [] => false
  | c :: rest => isEmailDomainChar c && emailDomTail rest

/-- Left-to-right scan for `re.search` of the email pattern: a match exists
iff some `'@'` is directly preceded by a local-part character and followed
by a valid domain tail.  `prevLocal` records whether the previous character
is in the local class. -/
def emailScanGo (prevLocal : Bool) : List Char → Bool
  | [] => false
  | c :: rest =>
    (c = '@' && prevLocal && emailAfterAt rest) || emailScanGo (isEmailLocalChar c) rest

/-- `re.search` of `_validate_user_agent`'s email pattern succeeds. -/
def hasEmailContact (s : List Char) : Bool := emailScanGo false s

/-- `re.search` of the website pattern `https?://` followed by at least one
non-whitespace character. -/
def hasWebsiteGo : List Char → Bool
  | [] => false
  | c :: t =>
    (pyStartsWith (c :: t) "https://".toList &&
      (match (c :: t).drop 8 with
        | d :: _ => !(isPyWs d)
        | [] => false)) ||
    (pyStartsWith (c :: t) "http://".toList &&
      (match (c :: t).drop 7 with
        | d :: _ => !(isPyWs d)
        | [] => false)) ||
    hasWebsiteGo t

/-- `SECEdgarAdapter._validate_user_agent`: contact information is present
when either regex search succeeds. -/
def secValidateUserAgent (userAgent : List Char) : Bool :=
  hasEmailContact userAgent || hasWebsiteGo userAgent

/-- `SECEdgarAdapter.__init__` up to the policy check: the constructor
raises `ValidationError` exactly when `_validate_user_agent` fails;
otherwise construction proceeds (the HTTP client it then builds is an
external capability). -/
def secEdgarInit (userAgent : List Char) : Except PyErr Unit :=
  if secValidateUserAgent userAgent then .ok ()
  else .error (.validationError
    "User-Agent must include contact information (email or website).".toList)

/-! ## Clean stage text operations (`pipeline/clean.py`, `CleanStage._clean_text`)

The five rewriting steps are embedded one-for-one.  The first step,
`unicodedata.normalize('NFKC', text)`, is an external standard-library
capability; it is modelled as the identity, which is exact on the ASCII
strings every theorem below evaluates and is recorded here once. -/

/-- Configuration of `CleanStage.__init__` with its defaults. -/
structure CleanCfg where
  removeUrls : Bool := false
  removeEmails : Bool := false
  normalizeWhitespace : Bool := true
  normalizeUnicode : Bool := true
  minContentLength : Nat := 10
deriving DecidableEq, Repr

/-- The default `CleanStage()` configuration. -/
def defaultCleanCfg : CleanCfg := {}

/-- `text.replace('\r\n', '\n')`: leftmost, non-overlapping. -/
def replaceCRLF : List Char → List Char
  | '\r' :: '\n' :: t => '\n' :: replaceCRLF t
  | c :: t => c :: replaceCRLF t
  | [] => []

/-- `.replace('\r', '\n')` applied second. -/
def mapCRtoNL (s : List Char) : List Char :=
  s.map (fun c => if c = '\r' then '\n' else c)

/-- Scanner for `re.sub(r'\n@3,', '\n\n', text)`: collapsing every
newline run of length `≥ 3` to two is the same as deleting every newline
already preceded by two consecutive newlines; `pre` counts the immediately
preceding newlines, capped at 2. -/
def collapseNLGo (pre : Nat) : List Char → List Char
  | [] => []
  | c :: t =>
    if c = '\n' then
      if pre ≥ 2 then collapseNLGo 2 t else '\n' :: collapseNLGo (pre + 1) t
    else c :: collapseNLGo 0 t

/-- `re.sub(r'\n@3,', '\n\n', text)`: every run of three or more
newlines becomes exactly two. -/
def collapseNL (s : List Char) : List Char := collapseNLGo 0 s

/-- Scanner for `re.sub(r' +', ' ', text)`: collapsing space runs to one
space is the same as deleting every space already preceded by a space;
`preSp` says whether the previous character is a space. -/
def collapseSpGo (preSp : Bool) : List Char → List Char
  | [] => []
  | c :: t =>
    if c = ' ' then
      if preSp then collapseSpGo true t else ' ' :: collapseSpGo true t
    else c :: collapseSpGo false t

/-- `re.sub(r' +', ' ', text)`: every run of spaces becomes one space. -/
def collapseSp (s : List Char) : List Char := collapseSpGo false s

/-- Python `text.split('\n')` (keeps empty pieces). -/
def splitNL : List Char → List (List Char)
  | [] => [[]]
  | '\n' :: t => [] :: splitNL t
  | c :: t =>
    match splitNL t with
    | [] => [[c]]
    | l :: ls => (c :: l) :: ls

/-- `'\n'.join(line.strip() for line in text.split('\n'))`. -/
def stripLines (s : List Char) : List Char :=
  List.intercalate ['\n'] ((splitNL s).map pyStrip)

/-- Character class matched inside a URL by the regex of `_clean_text`:
the alternation `[a-zA-Z] | [0-9] | [$-_@.&+] | [!*\(\),] | %xx` whose
single-character alternatives union to the `$`–`_` code-point range,
the lower-case letters and `'!'` (the `%xx` alternative adds nothing,
`'%'` already lying inside the range). -/
def isUrlChar (c : Char) : Bool :=
  ('$' ≤ c && c ≤ '_') || ('a' ≤ c && c ≤ 'z') || c = '!'

/-- Does the list start with a URL-class character? -/
def headIsUrlChar : List Char → Bool
  | d :: _ => isUrlChar d
  | [] => false

/-- Fuel-indexed scanner for `re.sub` of the URL pattern
`http[s]?://(...)+` with `''`: scan left to right; at a match (the literal
prefix followed by at least one URL character) remove the maximal greedy
run and continue after it.  Every step consumes at least one character, so
fuel equal to the input length never runs out. -/
def removeUrlsFuel : Nat → List Char → List Char
  | 0, s => s
  | _ + 1, [] => []
  | fuel + 1, c :: t =>
    if pyStartsWith (c :: t) "https://".toList && headIsUrlChar ((c :: t).drop 8) then
      removeUrlsFuel fuel (((c :: t).drop 8).dropWhile isUrlChar)
    else if pyStartsWith (c :: t) "http://".toList && headIsUrlChar ((c :: t).drop 7) then
      removeUrlsFuel fuel (((c :: t).drop 7).dropWhile isUrlChar)
    else c :: removeUrlsFuel fuel t

/-- `re.sub` of the URL pattern with `''`. -/
def removeUrlsFn (s : List Char) : List Char := removeUrlsFuel s.length s

/-- ASCII model of the regex word class `\w` used by `\b`. -/
def isWordChar (c : Char) : Bool := c.isAlphanum || c = '_'

/-- A regex word boundary `\b` between an optional previous and next
character (outside the string counts as a non-word position). -/
def isBoundary (prev next : Option Char) : Bool :=
  (match prev with | some c => isWordChar c | none => false) !=
  (match next with | some c => isWordChar c | none => false)

/-- Character class `[A-Z|a-z]` of the email pattern's final quantifier
(the `'|'` is a literal member of the class). -/
def isEmailTailChar (c : Char) : Bool := c.isAlpha || c = '|'

/-- Length of the match of the email pattern
`\b[A-Za-z0-9._%+-]+@[A-Za-z0-9.-]+\.[A-Z|a-z]@2,\b` when one starts
at the head of `s`, with `prev` the character before it; `none` when no
match starts here.  The searches mirror the backtracking order: the local
part is the maximal run (shorter runs cannot be followed by `@`), the
domain part is tried longest first (`kt` is the index of the matched dot
inside the domain run), and the tail quantifier is tried longest first
subject to the final word boundary. -/
def tryEmailAt (prev : Option Char) (s : List Char) : Option Nat :=
  if !(isBoundary prev s.head?) then none
  else
    let lLen := (s.takeWhile isEmailLocalChar).length
    if lLen = 0 then none
    else
      match s.drop lLen with
      | '@' :: afterAt =>
        let d := (afterAt.takeWhile isEmailDomainChar).length
        if d = 0 then none
        else
          match ((List.range (d - 1)).map (fun i => d - 1 - i)).findSome?
              (fun kt =>
                if afterAt[kt]? = some '.' then
                  let ap := afterAt.drop (kt + 1)
                  let a := (ap.takeWhile isEmailTailChar).length
                  ((List.range (a - 1)).map (fun i => a - i)).findSome?
                    (fun u =>
                      if isBoundary ap[u - 1]? ap[u]? then some (kt + 1 + u)
                      else none)
                else none) with
          | some tailLen => some (lLen + 1 + tailLen)
          | none => none
      | _ => none

/-- Fuel-indexed scan of `re.sub` for the email pattern: try a match at
every position; on a match drop it and continue after its end (the
boundary context for later positions is the original text's characters).
Every step consumes at least one character. -/
def removeEmailsFuel : Nat → Option Char → List Char → List Char
  | 0, _, s => s
  | _ + 1, _, [] => []
  | fuel + 1, prev, c :: t =>
    match tryEmailAt prev (c :: t) with
    | some n =>
      if n = 0 then c :: removeEmailsFuel fuel (some c) t
      else removeEmailsFuel fuel ((c :: t).take n).getLast? ((c :: t).drop n)
    | none => c :: removeEmailsFuel fuel (some c) t

/-- `re.sub` of the email pattern with `''`. -/
def removeEmailsFn (s : List Char) : List Char := removeEmailsFuel s.length none s

/-- `CleanStage._clean_text`: the full cleaning transformation. -/
def cleanText (cfg : CleanCfg) (text : List Char) : List Char :=
  let t1 := if cfg.removeUrls then removeUrlsFn text else text
  let t2 := if cfg.removeEmails then removeEmailsFn t1 else t1
  let t3 := mapCRtoNL (replaceCRLF t2)
  let t4 := collapseNL t3
  let t5 := if cfg.normalizeWhitespace then stripLines (collapseSp t4) else t4
  pyStrip t5

/-- `CleanStage._calculate_word_count`. -/
def pyWordCount (s : List Char) : Nat := (pySplitWs s).length

/-- Per-document body of `CleanStage.execute`: clean, warn (only) below
`min_content_length`, then construct the `CleanedDocument`. -/
def cleanDocument (cfg : CleanCfg) (tenantId : Option (List Char))
    (doc : RawDocument) : Except PyErr CleanedDocument :=
  let cc := cleanText cfg doc.content
  mkCleanedDocument doc.id doc.source cc (pyWordCount cc) cc.length
    (match tenantId with | some t => some t | none => doc.tenantId)

/-- Sequence a fallible map, stopping at the first error, as the Python
`for` loop does. -/
def mapExcept (f : α → Except PyErr β) : List α → Except PyErr (List β)
  | [] => .ok []
  | a :: t =>
    match f a with
    | .error e => .error e
    | .ok b =>
      match mapExcept f t with
      | .error e => .error e
      | .ok bs => .ok (b :: bs)

/-- `CleanStage.execute`: any exception inside the loop is caught and
re-raised as a `CleanStageError`, failing the whole batch. -/
def cleanStageExecute (cfg : CleanCfg) (docs : List RawDocument)
    (tenantId : Option (List Char)) : Except StageErr (List CleanedDocument) :=
  match mapExcept (cleanDocument cfg tenantId) docs with
  | .ok l => .ok l
  | .error e => .error (.clean ("Cleaning failed: ".toList ++ errStr e))

/-! ## Support for the clean-idempotence analysis: contiguous segments -/

/-- `t` occurs as a contiguous segment of `l`. -/
def IsSeg (t l : List Char) : Prop := ∃ a b, l = a ++ (t ++ b)

/-! ## A scanner for adjacent character pairs -/

/-- Is there an adjacent pair of characters satisfying `P`? -/
def badPair (P : Char → Char → Bool) : List Char → Bool
  | c :: d :: t => P c d || badPair P (d :: t)
  | _ => false

/-! ## Newline runs and `collapseNL` -/

/-- No run of three or more newlines occurs. -/
def No3NL (l : List Char) : Prop := ¬ IsSeg ['\n', '\n', '\n'] l

/-- Length of the leading newline run. -/
def leadNL (l : List Char) : Nat := (l.takeWhile (fun c => c == '\n')).length

/-! ## Space runs and `collapseSp` -/

/-- An adjacent pair of spaces. -/
def spPairP (c d : Char) : Bool := (c == ' ') && (d == ' ')

/-- Every line of the string is strip-fixed. -/
def LinesStripped (l : List Char) : Prop := ∀ p ∈ splitNL l, pyStrip p = p

/-! ## Whitespace adjacent to newlines -/

/-- A whitespace character other than the newline itself. -/
def nwsChar (c : Char) : Bool := isPyWs c && !(c == '\n')

/-- A strippable whitespace character adjacent to a newline. -/
def wsNlPairP (c d : Char) : Bool :=
  (nwsChar c && (d == '\n')) || ((c == '\n') && nwsChar d)

/-! ## Chunk stage (`pipeline/chunk.py`) -/

/-- `ChunkStage.__init__` parameters with their defaults (`settings.CHUNK_SIZE
= 500`, `settings.CHUNK_OVERLAP = 50`). -/
structure ChunkCfg where
  chunkSize : Nat := 500
  overlap : Nat := 50
  respectSentences : Bool := true
  respectParagraphs : Bool := true
  minChunkSize : Nat := 50
deriving DecidableEq, Repr

/-- The default `ChunkStage()` configuration. -/
def defaultChunkCfg : ChunkCfg := {}

/-- The `__init__` validation: `overlap` must be less than `chunk_size`. -/
def mkChunkStage (cfg : ChunkCfg) : Except PyErr ChunkCfg :=
  if cfg.overlap ≥ cfg.chunkSize then
    .error (.valueError "Overlap must be less than chunk_size".toList)
  else .ok cfg

/-- `ChunkStage._estimate_tokens`: `max(1, len(text) // 4)`. -/
def estimateTokens (s : List Char) : Nat := max 1 (s.length / 4)

/-- Does the previous character end a sentence (`[.!?]`)? -/
def isSentEnd : Option Char → Bool
  | some c => c = '.' || c = '!' || c = '?'
  | none => false

/-- Prepend a character to the first piece of a split result. -/
def prependHead (c : Char) : List (List Char) → List (List Char)
  | [] => [[c]]
  | p :: ps => (c :: p) :: ps

/-- `re.split(r'(?<=[.!?])\s+', text)`: raw pieces (before stripping).  A
split point is a maximal whitespace run whose preceding character ends a
sentence; `inSep` says the scanner is inside such a run (which the greedy
`\s+` consumes whole). -/
def sentSplitGo (prev : Option Char) (inSep : Bool) : List Char → List (List Char)
  | [] => [[]]
  | c :: t =>
    if inSep then
      if isPyWs c then sentSplitGo (some c) true t
      else prependHead c (sentSplitGo (some c) false t)
    else if isPyWs c && isSentEnd prev then
      [] :: sentSplitGo (some c) true t
    else prependHead c (sentSplitGo (some c) false t)

/-- `ChunkStage._split_into_sentences`. -/
def splitIntoSentences (text : List Char) : List (List Char) :=
  ((sentSplitGo none false text).map pyStrip).filter (fun s => s ≠ [])

/-- Python `text.split('\n\n')` (leftmost, non-overlapping). -/
def paraSplitGo : List Char → List (List Char)
  | '\n' :: '\n' :: t => [] :: paraSplitGo t
  | c :: t =>
    match paraSplitGo t with
    | [] => [[c]]
    | p :: ps => (c :: p) :: ps
  | [] => [[]]

/-- `ChunkStage._split_into_paragraphs`. -/
def splitIntoParagraphs (text : List Char) : List (List Char) :=
  ((paraSplitGo text).map pyStrip).filter (fun s => s ≠ [])

/-- Segment selection at the head of `_create_chunks`. -/
def segmentsOf (cfg : ChunkCfg) (content : List Char) : List (List Char) :=
  if cfg.respectParagraphs then splitIntoParagraphs content
  else if cfg.respectSentences then splitIntoSentences content
  else [content]

/-- `' '.join(...)` or `'\n\n'.join(...)` depending on `respect_sentences`. -/
def chunkJoin (cfg : ChunkCfg) (segs : List (List Char)) : List Char :=
  if cfg.respectSentences then List.intercalate [' '] segs
  else List.intercalate "\n\n".toList segs

/-- Python negative-index slice `l[-n:]` for `n` computed as a
non-negative int (`l[-0:]` is the whole list). -/
def pySliceLast (n : Nat) (l : List α) : List α :=
  if n = 0 then l else l.drop (l.length - n)

/-- `ChunkStage._create_chunk` (metadata tagging elided; the fresh uuid
`id` of a chunk is a runtime value and is not modelled). -/
def createChunkOf (doc : CleanedDocument) (content : List Char)
    (pos : Nat) (startChar endChar : Int) : Except PyErr Chunk :=
  mkChunk doc.id content (pos : Int) ((estimateTokens content : Nat) : Int)
    startChar endChar doc.tenantId

/-- Mutable state of the `_create_chunks` loop. -/
structure CkSt where
  chunks : List Chunk
  cur : List (List Char)
  curToks : Nat
  pos : Nat
  charOff : Nat
deriving Repr

/-- The flush at the head of the oversized-segment branch: save the
current chunk (if any) and reset the accumulator. -/
def ckFlushReset (cfg : ChunkCfg) (doc : CleanedDocument) (st : CkSt) :
    Except PyErr CkSt :=
  if st.cur = [] then .ok st
  else
    let text := chunkJoin cfg st.cur
    match createChunkOf doc text st.pos ((st.charOff : Int) - text.length) st.charOff with
    | .error e => .error e
    | .ok ch => .ok ⟨st.chunks ++ [ch], [], 0, st.pos + 1, st.charOff⟩

/-- Body of the inner sentence loop used when an oversized segment is
re-split by sentences (`char_offset` does not advance inside it). -/
def ckSentStep (cfg : ChunkCfg) (doc : CleanedDocument) (st : CkSt)
    (sentence : List Char) : Except PyErr CkSt :=
  let sToks := estimateTokens sentence
  if st.curToks + sToks > cfg.chunkSize ∧ st.cur ≠ [] then
    let text := chunkJoin cfg st.cur
    match createChunkOf doc text st.pos ((st.charOff : Int) - text.length) st.charOff with
    | .error e => .error e
    | .ok ch =>
      if cfg.overlap > 0 ∧ st.cur ≠ [] then
        let overlapText := List.intercalate [' '] (pySliceLast (cfg.overlap / 4) st.cur)
        .ok ⟨st.chunks ++ [ch], [overlapText, sentence],
          estimateTokens overlapText + sToks, st.pos + 1, st.charOff⟩
      else
        .ok ⟨st.chunks ++ [ch], [sentence], sToks, st.pos + 1, st.charOff⟩
  else
    .ok { st with cur := st.cur ++ [sentence], curToks := st.curToks + sToks }

/-- The index list of `range(0, n, stride)`. -/
def strideIndices (n stride : Nat) : List Nat :=
  if stride = 0 then [] else (List.range ((n + stride - 1) / stride)).map (· * stride)

/-- Character-stride splitting of an oversized segment when sentences are
not respected. -/
def ckStride (cfg : ChunkCfg) (doc : CleanedDocument) (st : CkSt)
    (segment : List Char) : Except PyErr CkSt :=
  (strideIndices segment.length (cfg.chunkSize * 4)).foldlM
    (fun (st : CkSt) i =>
      let text := (segment.drop i).take (cfg.chunkSize * 4)
      match createChunkOf doc text st.pos ((st.charOff + i : Nat) : Int)
          ((st.charOff + i + text.length : Nat) : Int) with
      | .error e => .error e
      | .ok ch => .ok { st with chunks := st.chunks ++ [ch], pos := st.pos + 1 })
    st

/-- One iteration of the main `for segment in segments` loop of
`_create_chunks`. -/
def ckSegStep (cfg : ChunkCfg) (doc : CleanedDocument) (st : CkSt)
    (segment : List Char) : Except PyErr CkSt :=
  let segToks := estimateTokens segment
  if segToks > cfg.chunkSize then
    match ckFlushReset cfg doc st with
    | .error e => .error e
    | .ok st1 =>
      let afterSplit :=
        if cfg.respectSentences then
          (splitIntoSentences segment).foldlM (ckSentStep cfg doc) st1
        else
          ckStride cfg doc st1 segment
      match afterSplit with
      | .error e => .error e
      | .ok st2 => .ok { st2 with charOff := st2.charOff + segment.length + 2 }
  else if st.curToks + segToks ≤ cfg.chunkSize then
    .ok ⟨st.chunks, st.cur ++ [segment], st.curToks + segToks, st.pos,
      st.charOff + segment.length + 2⟩
  else
    let flushed :
        Except PyErr (List Chunk × Nat) :=
      if st.cur = [] then .ok (st.chunks, st.pos)
      else
        let text := chunkJoin cfg st.cur
        match createChunkOf doc text st.pos ((st.charOff : Int) - text.length) st.charOff with
        | .error e => .error e
        | .ok ch => .ok (st.chunks ++ [ch], st.pos + 1)
    match flushed with
    | .error e => .error e
    | .ok (chunks1, pos1) =>
      if cfg.overlap > 0 ∧ st.cur ≠ [] then
        let overlapSegs := pySliceLast (max 1 (st.cur.length / 4)) st.cur
        let cur1 := overlapSegs ++ [segment]
        .ok ⟨chunks1, cur1, (cur1.map estimateTokens).sum, pos1,
          st.charOff + segment.length + 2⟩
      else
        .ok ⟨chunks1, [segment], segToks, pos1, st.charOff + segment.length + 2⟩

/-- `ChunkStage._create_chunks`: run the segment loop, then save the final
chunk only when it reaches `min_chunk_size` tokens. -/
def createChunks (cfg : ChunkCfg) (doc : CleanedDocument) :
    Except PyErr (List Chunk) :=
  match (segmentsOf cfg doc.content).foldlM (ckSegStep cfg doc) (⟨[], [], 0, 0, 0⟩ : CkSt) with
  | .error e => .error e
  | .ok st =>
    if st.cur = [] then .ok st.chunks
    else
      let text := chunkJoin cfg st.cur
      if estimateTokens text ≥ cfg.minChunkSize then
        match createChunkOf doc text st.pos
            (max 0 ((st.charOff : Int) - text.length)) st.charOff with
        | .error e => .error e
        | .ok ch => .ok (st.chunks ++ [ch])
      else .ok st.chunks

/-- `ChunkStage.execute`: chunk every document in order; any exception
becomes a `ChunkStageError`. -/
def chunkStageExecute (cfg : ChunkCfg) (docs : List CleanedDocument) :
    Except StageErr (List Chunk) :=
  match mapExcept (createChunks cfg) docs with
  | .ok ls => .ok ls.flatten
  | .error e => .error (.chunk ("Chunking failed: ".toList ++ errStr e))

/-! ## Embed stage (`pipeline/embed.py`), Store stage (`pipeline/store.py`)

The embedding provider (`services/embedding_service.py`, an OpenAI client)
is an external capability: it is a parameter
`provider : List (List Char) → Except PyErr (List (List ℚ))` returning one
vector per input text.  Likewise the DataForge vector-store client of the
Store stage is a parameter recording only success or failure. -/

/-- `EmbedStage.execute`: with no chunks it returns `[]` before calling the
provider; otherwise it requests vectors for the chunk contents and wraps
each in an `Embedding` (whose construction validates the dimension); every
exception becomes an `EmbedStageError`. -/
def embedStageExecute (provider : List (List Char) → Except PyErr (List (List ℚ)))
    (modelName : List Char) (chunks : List Chunk) (tenantId : Option (List Char)) :
    Except StageErr (List Embedding) :=
  if chunks = [] then .ok []
  else
    match provider (chunks.map (·.content)) with
    | .error e => .error (.embed ("Embedding failed: ".toList ++ errStr e))
    | .ok vectors =>
      match mapExcept
          (fun (p : Chunk × List ℚ) =>
            mkEmbedding p.1.id p.2 modelName
              ⟨p.1.documentId, p.1.position, p.2.length⟩
              (match tenantId with | some t => some t | none => p.1.tenantId))
          (chunks.zip vectors) with
      | .ok es => .ok es
      | .error e => .error (.embed ("Unexpected error: ".toList ++ errStr e))

/-- Insertion-ordered distinct keys, as iteration over a Python dict built
by grouping yields them. -/
def dedupFuel : Nat → List (List Char) → List (List Char)
  | 0, l => l
  | _ + 1, [] => []
  | fuel + 1, a :: t => a :: dedupFuel fuel (t.filter (fun b => b ≠ a))

/-- Insertion-ordered distinct keys (fuel never runs out: each step
shortens the list). -/
def dedupKeepFirst (l : List (List Char)) : List (List Char) :=
  dedupFuel l.length l

/-- `StoreStage.execute`: with no embeddings it returns `[]` before calling
the store; otherwise it batch-submits all embeddings (the external client
call is the `storeClient` parameter), groups them by the `document_id` of
their metadata and builds one `StoredDocument` per group. -/
def storeStageExecute (storeClient : Except PyErr Unit) (source : List Char)
    (url : Option (List Char)) (tenantId : Option (List Char))
    (embeddings : List Embedding) : Except StageErr (List StoredDocument) :=
  if embeddings = [] then .ok []
  else
    match storeClient with
    | .error e => .error (.store ("Store failed: ".toList ++ errStr e))
    | .ok _ =>
      let docIds := dedupKeepFirst (embeddings.map (·.meta.documentId))
      .ok (docIds.map (fun did =>
        let group := embeddings.filter (fun e => e.meta.documentId = did)
        { id := did
          source := source
          url := url
          chunkCount := (dedupKeepFirst (group.map (·.chunkId))).length
          embeddingCount := group.length
          status := .completed
          tenantId := match tenantId with
            | some t => some t
            | none => match group.head? with
              | some e0 => e0.tenantId
              | none => none }))

/-! ## Orchestrator (`pipeline/orchestrator.py`) and the background job
runner (`api/routes.py`) -/

/-- `FetchStage.execute`: the adapter call (with its retry wrapper) is the
outcome parameter; adapter errors are re-raised as `FetchStageError`. -/
def fetchStageExecute (adapterResult : Except PyErr (List RawDocument)) :
    Except StageErr (List RawDocument) :=
  match adapterResult with
  | .ok docs => .ok docs
  | .error (.fetchError m) => .error (.fetch ("Fetch failed: ".toList ++ m))
  | .error (.validationError m) => .error (.fetch ("Fetch failed: ".toList ++ m))
  | .error e => .error (.fetch ("Unexpected error: ".toList ++ errStr e))

/-- The message of a stage error (its `str(e)`). -/
def stageErrMsg : StageErr → List Char
  | .fetch m => m
  | .clean m => m
  | .chunk m => m
  | .embed m => m
  | .store m => m

/-- The fields of the orchestrator's in-memory `PipelineJob` that the
claims observe. -/
structure PipelineJobState where
  status : ProcessingStatus
  currentStage : Nat
  stagesCompleted : List (List Char)
  completedAt : Option Unit
  errorMessage : Option (List Char)
deriving Repr

/-- The success payload `PipelineOrchestrator.run` returns. -/
structure RunOk where
  status : ProcessingStatus
  documentsStored : Nat
  chunksCreated : Nat
  embeddingsGenerated : Nat
  stagesCompleted : List (List Char)
deriving DecidableEq, Repr

/-- The `PipelineError` message `f"Pipeline failed at stage N: ..."`. -/
def pipelineErrMsg (stage : Nat) (se : StageErr) : List Char :=
  "Pipeline failed at stage ".toList ++ (toString stage).toList ++ ": ".toList ++
    stageErrMsg se

/-- `PipelineOrchestrator.run`: the five stages in sequence, threading the
in-memory job record exactly as the source does.  On the success path the
job gets `status=completed` and `completed_at=now`; on a stage error the
job gets `status=failed` and an error message, and `completed_at` is not
written. -/
def orchestratorRun (adapterResult : Except PyErr (List RawDocument))
    (provider : List (List Char) → Except PyErr (List (List ℚ)))
    (modelName : List Char) (storeClient : Except PyErr Unit)
    (cleanCfg : CleanCfg) (chunkCfg : ChunkCfg)
    (source : List Char) (url : Option (List Char))
    (tenantId : Option (List Char)) :
    Except (List Char) RunOk × PipelineJobState :=
  match fetchStageExecute adapterResult with
  | .error se =>
    (.error (pipelineErrMsg 1 se), ⟨.failed, 1, [], none, some (stageErrMsg se)⟩)
  | .ok docs =>
    let s1 : List (List Char) := ["fetch".toList]
    match cleanStageExecute cleanCfg docs tenantId with
    | .error se =>
      (.error (pipelineErrMsg 2 se), ⟨.failed, 2, s1, none, some (stageErrMsg se)⟩)
    | .ok cleanedDocs =>
      let s2 := s1 ++ ["clean".toList]
      match chunkStageExecute chunkCfg cleanedDocs with
      | .error se =>
        (.error (pipelineErrMsg 3 se), ⟨.failed, 3, s2, none, some (stageErrMsg se)⟩)
      | .ok chunks =>
        let s3 := s2 ++ ["chunk".toList]
        match embedStageExecute provider modelName chunks tenantId with
        | .error se =>
          (.error (pipelineErrMsg 4 se), ⟨.failed, 4, s3, none, some (stageErrMsg se)⟩)
        | .ok embeddings =>
          let s4 := s3 ++ ["embed".toList]
          match storeStageExecute storeClient source url tenantId embeddings with
          | .error se =>
            (.error (pipelineErrMsg 5 se), ⟨.failed, 5, s4, none, some (stageErrMsg se)⟩)
          | .ok storedDocs =>
            let s5 := s4 ++ ["store".toList]
            (.ok ⟨.completed, storedDocs.length, chunks.length, embeddings.length, s5⟩,
              ⟨.completed, 5, s5, some (), none⟩)

/-- The persisted job fields the claims observe (`api/routes.py` job
records). -/
structure StoredJobRecord where
  status : ProcessingStatus
  completedAt : Option Unit
  errorMessage : Option (List Char)
deriving Repr

/-- The record inserted by `POST /jobs` (`submit_job`). -/
def submitJobRecord : StoredJobRecord := ⟨.pending, none, none⟩

/-- The terminal update `_run_pipeline_job` writes: on success it patches
`status=result["status"], completed_at=now`; on `PipelineError` (or any
other exception) it patches `status="failed", completed_at=now` and the
error message. -/
def runPipelineJobUpdate (orch : Except (List Char) RunOk) : StoredJobRecord :=
  match orch with
  | .ok r => ⟨r.status, some (), none⟩
  | .error msg => ⟨.failed, some (), some msg⟩

/-- The patch written by `DELETE /jobs` (`cancel_job`) on a non-terminal
record: only the status is set to `cancelled`. -/
def cancelJobUpdate (r : StoredJobRecord) : StoredJobRecord :=
  { r with status := .cancelled }

/-! ## URL scrape adapter (`sources/url_scrape.py`)

The HTTP client and sitemap XML parsing are external capabilities: the
robots.txt body the server would return (when it answers 200) and the
per-page fetch outcomes are parameters, and the page list of a sitemap is
the already-parsed parameter `urls`. -/

/-- `line.split(':', 1)[1]`: everything after the first colon. -/
def afterFirstColon : List Char → List Char
  | [] => []
  | ':' :: t => t
  | _ :: t => afterFirstColon t

/-- The `for line in robots_content.split('\n')` loop of
`_check_robots_txt`; `sect` is the `user_agent_section` flag.  Returns
`false` (disallowed) on the first matching `Disallow:` prefix. -/
def robotsLinesAllow (userAgent urlPath : List Char) :
    Bool → List (List Char) → Bool
  | _, [] => true
  | sect, line :: rest =>
    let l := pyLower (pyStrip line)
    if pyStartsWith l "user-agent:".toList then
      robotsLinesAllow userAgent urlPath
        (pyStrip (afterFirstColon l) = "*".toList ||
          pyContains (pyLower userAgent) (pyStrip (afterFirstColon l))) rest
    else if sect && pyStartsWith l "disallow:".toList then
      let p := pyStrip (afterFirstColon l)
      if p ≠ [] && pyStartsWith urlPath p then false
      else robotsLinesAllow userAgent urlPath sect rest
    else robotsLinesAllow userAgent urlPath sect rest

/-- `URLScrapeAdapter._check_robots_txt`: permissive when robots checking
is disabled, when the robots request does not return 200, or when the
check itself fails; otherwise parse the body against the page path. -/
def checkRobotsTxt (respectRobots : Bool) (userAgent : List Char)
    (robotsBody : Option (List Char)) (urlPath : List Char) : Bool :=
  if !respectRobots then true
  else
    match robotsBody with
    | none => true
    | some body => robotsLinesAllow userAgent urlPath false (splitNL body)

/-- A URL as the adapter sees it: the full string and its `urlparse` path
component. -/
structure ScrapeUrl where
  full : List Char
  path : List Char
deriving DecidableEq, Repr

/-- The outer exception handler of `URLScrapeAdapter.fetch`: `FetchError`
and `ValidationError` re-raise unchanged, anything else is wrapped. -/
def urlScrapeWrap (e : PyErr) : PyErr :=
  match e with
  | .fetchError m => .fetchError m
  | .validationError m => .validationError m
  | e => .fetchError ("Failed to fetch URLs: ".toList ++ errStr e)

/-- Single-URL mode of `URLScrapeAdapter.fetch`: a robots-disallowed path
raises `FetchError` before any page request. -/
def urlScrapeFetchSingle (respectRobots : Bool) (userAgent : List Char)
    (robotsBody : Option (List Char))
    (pageFetch : List Char → Except PyErr (List Char))
    (tenantId : Option (List Char)) (url : ScrapeUrl) :
    Except PyErr (List RawDocument) :=
  if !(checkRobotsTxt respectRobots userAgent robotsBody url.path) then
    .error (.fetchError ("URL disallowed by robots.txt: ".toList ++ url.full))
  else
    match pageFetch url.full with
    | .error e => .error (urlScrapeWrap e)
    | .ok content =>
      match mkRawDocument [] "url_scrape".toList (some url.full) content tenantId with
      | .error e => .error (urlScrapeWrap e)
      | .ok doc => .ok [doc]

/-- The `for page_url in urls` loop of sitemap mode: robots-disallowed and
already-visited pages are skipped, per-page `FetchError`s are caught and
the loop continues; at the end an empty document list raises the
no-documents `FetchError`. -/
def urlScrapeSitemapGo (respectRobots : Bool) (userAgent : List Char)
    (robotsBody : Option (List Char))
    (pageFetch : List Char → Except PyErr (List Char))
    (tenantId : Option (List Char)) :
    List (List Char) → List RawDocument → List ScrapeUrl →
    Except PyErr (List RawDocument)
  | _, acc, [] =>
    if acc = [] then
      .error (.fetchError "No documents were successfully fetched".toList)
    else .ok acc
  | visited, acc, u :: rest =>
    if !(checkRobotsTxt respectRobots userAgent robotsBody u.path) then
      urlScrapeSitemapGo respectRobots userAgent robotsBody pageFetch tenantId
        visited acc rest
    else if u.full ∈ visited then
      urlScrapeSitemapGo respectRobots userAgent robotsBody pageFetch tenantId
        visited acc rest
    else
      match pageFetch u.full with
      | .error (.fetchError _) =>
        urlScrapeSitemapGo respectRobots userAgent robotsBody pageFetch tenantId
          (u.full :: visited) acc rest
      | .error e => .error (urlScrapeWrap e)
      | .ok content =>
        match mkRawDocument [] "url_scrape".toList (some u.full) content tenantId with
        | .error e => .error (urlScrapeWrap e)
        | .ok doc =>
          urlScrapeSitemapGo respectRobots userAgent robotsBody pageFetch tenantId
            (u.full :: visited) (acc ++ [doc]) rest

/-- Sitemap mode of `URLScrapeAdapter.fetch` over the parsed page list. -/
def urlScrapeFetchSitemap (respectRobots : Bool) (userAgent : List Char)
    (robotsBody : Option (List Char))
    (pageFetch : List Char → Except PyErr (List Char))
    (tenantId : Option (List Char)) (urls : List ScrapeUrl) :
    Except PyErr (List RawDocument) :=
  urlScrapeSitemapGo respectRobots userAgent robotsBody pageFetch tenantId [] [] urls

/-! ## Concrete scenario values used by the theorems -/

/-- A 1536-dimensional zero vector. -/
def zeroVec1536 : List ℚ := List.replicate 1536 0

/-- A 3072-dimensional zero vector (the declared dimension of
`text-embedding-3-large`). -/
def zeroVec3072 : List ℚ := List.replicate 3072 0

/-- The raw document fetched from a file containing exactly
`Hello world. This is a test.`. -/
def helloRaw : RawDocument :=
  ⟨"doc-1".toList, "file_upload".toList, some "/tmp/doc.txt".toList,
   "Hello world. This is a test.".toList, some "t1".toList⟩

/-- An embedding provider returning a correct 1536-vector per text. -/
def provider0 : List (List Char) → Except PyErr (List (List ℚ)) :=
  fun texts => .ok (texts.map (fun _ => zeroVec1536))

/-- The pipeline run of the happy-path file-upload scenario with all
defaults. -/
def helloRun : Except (List Char) RunOk × PipelineJobState :=
  orchestratorRun (.ok [helloRaw]) provider0 "text-embedding-3-small".toList
    (.ok ()) defaultCleanCfg defaultChunkCfg "file_upload".toList
    (some "/tmp/doc.txt".toList) (some "t1".toList)

/-- The five stage names in pipeline order. -/
def fiveStages : List (List Char) :=
  ["fetch".toList, "clean".toList, "chunk".toList, "embed".toList, "store".toList]

/-- A pipeline run whose adapter fetch fails permanently. -/
def failRun : Except (List Char) RunOk × PipelineJobState :=
  orchestratorRun (.error (.fetchError "connection refused".toList)) provider0
    "text-embedding-3-small".toList (.ok ()) defaultCleanCfg defaultChunkCfg
    "file_upload".toList none none

/-- A fetch that fails with a transient error on every attempt. -/
def alwaysFetchFail : Nat → Except PyErr Unit :=
  fun _ => .error (.fetchError "boom".toList)

/-- A fetch that fails with a validation error on every attempt. -/
def alwaysValFail : Nat → Except PyErr Unit :=
  fun _ => .error (.validationError "bad input".toList)

/-- A well-formed chunk used to exercise the embed stage. -/
def sampleChunk : Chunk :=
  ⟨[], "doc-1".toList, "Some chunk content here.".toList, 0, 6, 0, 24, none⟩

/-- A robots.txt disallowing `/blocked` for every user agent. -/
def robotsBlockedTxt : List Char := "User-agent: *\nDisallow: /blocked".toList

/-- A page fetch that succeeds with fixed content for every URL. -/
def pageOkFetch : List Char → Except PyErr (List Char) :=
  fun _ => .ok "Some page content here.".toList

/-- The robots-disallowed page. -/
def blockedUrl : ScrapeUrl :=
  ⟨"https://site.example/blocked".toList, "/blocked".toList⟩

/-- A robots-allowed page on the same host. -/
def allowedUrl : ScrapeUrl := ⟨"https://site.example/ok".toList, "/ok".toList⟩

/-- A raw document whose content is nothing but a URL. -/
def urlOnlyRaw : RawDocument :=
  ⟨"doc-9".toList, "url_scrape".toList, none, "https://example.com".toList, none⟩

/-- The clean configuration with URL removal enabled. -/
def urlRemovalCfg : CleanCfg := { defaultCleanCfg with removeUrls := true }

/-! ## C1 — embedding vector dimension -/

theorem length_zeroVec1536 : zeroVec1536.length = 1536 := by
  rw [zeroVec1536]; exact List.length_replicate _ _

theorem length_zeroVec3072 : zeroVec3072.length = 3072 := by
  rw [zeroVec3072]; exact List.length_replicate _ _

/-- C1, counterexample.  The claim says an `Embedding` whose vector length
differs from its model's declared dimension cannot be constructed (3072
for `text-embedding-3-large`).  In the code the validator compares against
the constant 1536 for every model: a 1536-vector for the large model (a
mismatch) is accepted, and a 3072-vector (the declared dimension) is
rejected. -/
theorem C1_dimension_counterexample :
    isOkE (mkEmbedding "chunk-1".toList zeroVec1536 "text-embedding-3-large".toList
      ⟨"doc-1".toList, 0, 1536⟩ none) = true
    ∧ declaredDimension "text-embedding-3-large".toList = 3072
    ∧ zeroVec1536.length ≠ declaredDimension "text-embedding-3-large".toList
    ∧ isOkE (mkEmbedding "chunk-1".toList zeroVec3072 "text-embedding-3-large".toList
      ⟨"doc-1".toList, 0, 3072⟩ none) = false := by
  refine ⟨?_, by decide, ?_, ?_⟩
  · simp [mkEmbedding, isOkE, length_zeroVec1536]
  · rw [length_zeroVec1536]; decide
  · simp [mkEmbedding, isOkE, length_zeroVec3072]

/-- C1, amended.  Every constructible `Embedding` has a vector of length
exactly 1536 regardless of its `model` field (so the per-model contract
holds only for the models whose declared dimension is 1536); the declared
dimensions are as the spec lists them; and a provider vector of a
different length makes the Embed stage fail with a stage error. -/
theorem C1_dimension_amended :
    (∀ (chunkId : List Char) (v : List ℚ) (model : List Char)
       (meta : EmbedMeta) (tenant : Option (List Char)),
       isOkE (mkEmbedding chunkId v model meta tenant) = (v.length == 1536))
    ∧ declaredDimension "text-embedding-3-small".toList = 1536
    ∧ declaredDimension "text-embedding-3-large".toList = 3072
    ∧ declaredDimension "text-embedding-ada-002".toList = 1536
    ∧ embedStageExecute (fun _ => .ok [zeroVec3072]) "text-embedding-3-large".toList
        [sampleChunk] none
      = .error (.embed ("Unexpected error: ".toList ++
          "Embedding vector must have 1536 dimensions".toList)) := by
  refine ⟨?_, by decide, by decide, by decide, ?_⟩
  · intro chunkId v model meta tenant
    by_cases h : v.length = 1536 <;> simp [mkEmbedding, isOkE, h]
  · simp [embedStageExecute, mapExcept, mkEmbedding, length_zeroVec3072, errStr]

/-! ## C2 — happy-path file upload -/

/-- C2, counterexample.  For the file containing
`Hello world. This is a test.` the pipeline completes, but with
`chunks_created = 0`: the whole document estimates to 7 tokens, below the
default `min_chunk_size = 50`, so the trailing chunk is dropped — refuting
`chunks_created ≥ 1`. -/
theorem C2_file_upload_counterexample :
    helloRun.1 = .ok ⟨.completed, 0, 0, 0, fiveStages⟩
    ∧ ¬ 1 ≤ (RunOk.chunksCreated ⟨.completed, 0, 0, 0, fiveStages⟩) := by
  exact ⟨rfl, by decide⟩

/-- C2, amended.  The job completes with
`stages_completed = [fetch, clean, chunk, embed, store]` and
`embeddings_generated = chunks_created`, but both counts are 0 (and no
document is stored): the single chunk of the test document is dropped by
the default `min_chunk_size`.  This holds for every embedding provider and
store client since neither is reached with an empty chunk list. -/
theorem C2_file_upload_amended :
    ∀ (provider : List (List Char) → Except PyErr (List (List ℚ)))
      (storeClient : Except PyErr Unit),
      (orchestratorRun (.ok [helloRaw]) provider "text-embedding-3-small".toList
        storeClient defaultCleanCfg defaultChunkCfg "file_upload".toList
        (some "/tmp/doc.txt".toList) (some "t1".toList)).1
        = .ok ⟨.completed, 0, 0, 0, fiveStages⟩
      ∧ (orchestratorRun (.ok [helloRaw]) provider "text-embedding-3-small".toList
        storeClient defaultCleanCfg defaultChunkCfg "file_upload".toList
        (some "/tmp/doc.txt".toList) (some "t1".toList)).2
        = ⟨.completed, 5, fiveStages, some (), none⟩ := by
  intro provider storeClient
  exact ⟨rfl, rfl⟩

/-! ## C3 — `completed_at` iff terminal -/

/-- C3, counterexample.  After a stage error the orchestrator's job record
has the terminal status `failed` but `completed_at` is still null: the
failure path of `PipelineOrchestrator.run` never writes `completed_at`. -/
theorem C3_completed_at_counterexample :
    failRun.2.status = .failed
    ∧ (failRun.2.status).isTerminal = true
    ∧ failRun.2.completedAt = none := by
  exact ⟨rfl, rfl, rfl⟩

/-- C3, amended.  `completed_at` is stamped by the background job runner,
not the orchestrator: the runner's terminal update always sets it together
with a terminal status, and the submission record has neither; the
orchestrator's own job carries `completed_at` exactly on the success path;
and the cancel endpoint leaves a terminal `cancelled` record with
`completed_at` null. -/
theorem C3_completed_at_amended :
    (∀ (adapterResult : Except PyErr (List RawDocument))
       (provider : List (List Char) → Except PyErr (List (List ℚ)))
       (modelName : List Char) (storeClient : Except PyErr Unit)
       (cleanCfg : CleanCfg) (chunkCfg : ChunkCfg)
       (source : List Char) (url tenantId : Option (List Char)),
       (runPipelineJobUpdate (orchestratorRun adapterResult provider modelName
         storeClient cleanCfg chunkCfg source url tenantId).1).completedAt.isSome = true
       ∧ ((runPipelineJobUpdate (orchestratorRun adapterResult provider modelName
         storeClient cleanCfg chunkCfg source url tenantId).1).status).isTerminal = true
       ∧ (orchestratorRun adapterResult provider modelName storeClient cleanCfg
         chunkCfg source url tenantId).2.completedAt.isSome
         = ((orchestratorRun adapterResult provider modelName storeClient cleanCfg
           chunkCfg source url tenantId).2.status == ProcessingStatus.completed))
    ∧ (submitJobRecord.completedAt = none ∧ submitJobRecord.status.isTerminal = false)
    ∧ ((cancelJobUpdate submitJobRecord).status.isTerminal = true
       ∧ (cancelJobUpdate submitJobRecord).completedAt = none) := by
  refine ⟨?_, ⟨rfl, rfl⟩, ⟨rfl, rfl⟩⟩
  intro adapterResult provider modelName storeClient cleanCfg chunkCfg source url tenantId
  simp only [orchestratorRun]
  repeat' split
  all_goals exact ⟨rfl, rfl, rfl⟩

/-! ## C4, C5 — the retry harness over adapter fetches -/

/-- When every attempt fails, the retry loop starting at attempt `a` with
`r + 1` attempts left sleeps `base ^ a, base ^ (a+1), …` and finally raises
a `FetchError` wrapping the message of the last error. -/
theorem retryGo_allFail (e : Nat → PyErr) (base : ℚ) (mx : Nat) :
    ∀ (r a : Nat) (le : Option PyErr),
    fetchWithRetryGo (fun k => (.error (e k) : Except PyErr Unit)) base mx a (r + 1) le
      = ⟨(List.range r).map (fun k => base ^ (a + k)), r + 1,
         .error (.fetchError (failAfterMsg mx (some (e (a + r)))))⟩ := by
  intro r
  induction r with
  | zero =>
    intro a le
    simp [fetchWithRetryGo]
  | succ r ih =>
    intro a le
    rw [fetchWithRetryGo.eq_def]
    simp only []
    rw [if_neg (Nat.succ_ne_zero r)]
    rw [ih (a + 1)]
    simp only [List.range_succ_eq_map, List.map_cons, List.map_map]
    have h2 : a + 1 + r = a + (r + 1) := by omega
    have h3 : ((fun k => base ^ (a + k)) ∘ Nat.succ) = (fun k => base ^ (a + 1 + k)) := by
      funext k
      simp only [Function.comp]
      congr 1
      omega
    rw [h3, h2]
    simp

/-- C4, counterexample.  With the defaults (`backoff_base = 2`,
`max_attempts = 3`) the sleeps of `fetch_with_retry` are `[2, 4]` seconds,
while the claimed formula `min(base_delay · multiplier^(k-1), max_delay)`
(defaults `base_delay = 1, multiplier = 2, max_delay = 60`) prescribes
`[1, 2]`. -/
theorem C4_backoff_counterexample :
    (fetchWithRetry alwaysFetchFail 3 2).sleeps = [2, 4]
    ∧ [specRetryDelay 1 2 60 1, specRetryDelay 1 2 60 2] = [1, 2]
    ∧ (fetchWithRetry alwaysFetchFail 3 2).sleeps
        ≠ [specRetryDelay 1 2 60 1, specRetryDelay 1 2 60 2] := by
  have hs : [specRetryDelay 1 2 60 1, specRetryDelay 1 2 60 2] = [(1 : ℚ), 2] := by
    norm_num [specRetryDelay]
  refine ⟨by decide, hs, ?_⟩
  rw [hs]
  decide

/-- C4, amended.  `fetch_with_retry` sleeps exactly
`backoff_base ** k` seconds after failed attempt `k` (no `base_delay`
factor, an exponent one higher than the spec formula, and no `max_delay`
cap), and after the last failed attempt it raises a fresh `FetchError`
wrapping the last error's message rather than re-raising the error
itself. -/
theorem C4_backoff_amended : ∀ (e : Nat → PyErr) (base : ℚ) (m : Nat),
    (fetchWithRetry (fun k => (.error (e k) : Except PyErr Unit)) m base).sleeps
      = (List.range (m - 1)).map (fun k => base ^ (k + 1))
    ∧ (fetchWithRetry (fun k => (.error (e k) : Except PyErr Unit)) m base).outcome
      = .error (.fetchError (failAfterMsg m (if m = 0 then none else some (e m))))
    ∧ (fetchWithRetry (fun k => (.error (e k) : Except PyErr Unit)) m base).attemptsMade
      = m := by
  intro e base m
  cases m with
  | zero => simp [fetchWithRetry, fetchWithRetryGo]
  | succ msub =>
    have h := retryGo_allFail e base (msub + 1) msub 1 none
    have hfun : (fun k => base ^ (1 + k)) = (fun k => base ^ (k + 1)) := by
      funext k
      congr 1
      omega
    simp only [fetchWithRetry, h, Nat.add_sub_cancel]
    refine ⟨by rw [← hfun], ?_, by trivial⟩
    first
    | trivial
    | simp [Nat.add_comm 1 msub]

/-- C5, counterexample.  A fetch that raises a `ValidationError` on every
call is attempted the full 3 times with backoff sleeps in between, and the
failure finally surfaces as a wrapping `FetchError` — not immediately and
not as the validation error itself. -/
theorem C5_validation_retry_counterexample :
    (fetchWithRetry alwaysValFail 3 2).attemptsMade = 3
    ∧ (fetchWithRetry alwaysValFail 3 2).attemptsMade ≠ 1
    ∧ (fetchWithRetry alwaysValFail 3 2).sleeps = [2, 4]
    ∧ (fetchWithRetry alwaysValFail 3 2).outcome
        = .error (.fetchError "Failed to fetch after 3 attempts: bad input".toList) := by
  refine ⟨by decide, by decide, by decide, by rfl⟩

/-- C5, amended.  `fetch_with_retry` catches every exception alike: the
attempt count and the sleep schedule do not depend on the error kind at
all (there is no retriable-error predicate), and in particular a fetch
failing with validation errors is re-attempted until `max_attempts` is
exhausted. -/
theorem C5_error_kind_blind_amended : ∀ (e₁ e₂ : Nat → PyErr) (base : ℚ) (m : Nat),
    (fetchWithRetry (fun k => (.error (e₁ k) : Except PyErr Unit)) m base).attemptsMade
      = (fetchWithRetry (fun k => (.error (e₂ k) : Except PyErr Unit)) m base).attemptsMade
    ∧ (fetchWithRetry (fun k => (.error (e₁ k) : Except PyErr Unit)) m base).sleeps
      = (fetchWithRetry (fun k => (.error (e₂ k) : Except PyErr Unit)) m base).sleeps
    ∧ (fetchWithRetry
        (fun k => (.error (.validationError (errStr (e₁ k))) : Except PyErr Unit))
        m base).attemptsMade = m := by
  intro e1 e2 base m
  cases m with
  | zero => simp [fetchWithRetry, fetchWithRetryGo]
  | succ msub =>
    have h1 := retryGo_allFail e1 base (msub + 1) msub 1 none
    have h2 := retryGo_allFail e2 base (msub + 1) msub 1 none
    have h3 := retryGo_allFail (fun k => (.validationError (errStr (e1 k)) : PyErr))
      base (msub + 1) msub 1 none
    simp only [fetchWithRetry, h1, h2, h3]
    refine ⟨by trivial, by trivial, by trivial⟩

/-! ## C6 — database read-only guard -/

/-- C6.  The read-only guard runs before any engine is created and behaves
as the claim says on every non-degenerate query — but on a whitespace-only
query (whose stripped form does not begin with `SELECT`) the guard crashes
with an `IndexError` instead of raising a `ValidationError`: the error
message interpolation evaluates `query_upper.split()[0]` on an empty
split.  The conjuncts also evaluate the guard on a non-`SELECT` query, on
passing `SELECT` queries, and on a `SELECT` query tripping the substring
keyword check. -/
theorem C6_readonly_guard_code_bug :
    dqValidateInput true (some "sqlite:///db.sqlite".toList) (some " ".toList)
      = .error .indexError
    ∧ (dqFetchGuard true (some "sqlite:///db.sqlite".toList) (some " ".toList)).engineCreated
      = false
    ∧ dqValidateInput true (some "sqlite:///db.sqlite".toList) (some "DELETE FROM t".toList)
      = .error (.validationError
          "Only SELECT queries allowed in read-only mode. Query starts with: DELETE".toList)
    ∧ (dqFetchGuard true (some "sqlite:///db.sqlite".toList)
        (some "DELETE FROM t".toList)).engineCreated = false
    ∧ dqValidateInput true (some "sqlite:///db.sqlite".toList)
        (some "SELECT name FROM authors".toList) = .ok ()
    ∧ dqValidateInput true (some "postgresql://host/db".toList)
        (some "select id from people where id = 7".toList) = .ok ()
    ∧ dqValidateInput true (some "sqlite:///db.sqlite".toList)
        (some "SELECT updated_at FROM t".toList)
      = .error (.validationError
          "Query contains forbidden keyword: UPDATE (read-only mode enabled)".toList) := by
  refine ⟨rfl, rfl, rfl, rfl, rfl, rfl, rfl⟩

/-! ## C8 — SEC EDGAR user-agent policy -/

/-- C8.  The SEC EDGAR constructor fails with a `ValidationError` exactly
when the user agent contains neither an email address nor an http(s) URL
(in the sense of `_validate_user_agent`'s two regex searches);
`user_agent="TestApp"` is rejected, and user agents carrying an email or a
URL are accepted. -/
theorem C8_user_agent_policy :
    secEdgarInit "TestApp".toList
      = .error (.validationError
          "User-Agent must include contact information (email or website).".toList)
    ∧ (∀ ua : List Char, isOkE (secEdgarInit ua) = (hasEmailContact ua || hasWebsiteGo ua))
    ∧ isOkE (secEdgarInit "MyApp/1.0 admin@example.com".toList) = true
    ∧ isOkE (secEdgarInit "MyApp/1.0 https://example.com".toList) = true
    ∧ isOkE (secEdgarInit "MyApp http://example.com/contact".toList) = true := by
  refine ⟨rfl, ?_, rfl, rfl, rfl⟩
  intro ua
  by_cases h : secValidateUserAgent ua
  · rw [secEdgarInit, if_pos h]
    rw [secValidateUserAgent] at h
    simp [isOkE, h]
  · rw [secEdgarInit, if_neg h]
    rw [secValidateUserAgent] at h
    simp [isOkE]
    simpa using h

/-! ## C9 — robots.txt enforcement in the URL scrape adapter -/

/-- C9, counterexample.  The claim says a robots-disallowed page in
sitemap mode is skipped "and the fetch as a whole does not fail"; but when
every sitemap page is disallowed no document is produced and the fetch
raises the no-documents `FetchError`. -/
theorem C9_sitemap_counterexample :
    urlScrapeFetchSitemap true "rake-bot".toList (some robotsBlockedTxt) pageOkFetch none
      [blockedUrl]
      = .error (.fetchError "No documents were successfully fetched".toList)
    ∧ checkRobotsTxt true "rake-bot".toList (some robotsBlockedTxt) blockedUrl.path
      = false := by
  exact ⟨rfl, rfl⟩

/-- C9, amended.  Single-URL mode fails with a robots `FetchError` for any
disallowed path; sitemap mode produces no document for a disallowed page
and succeeds when some other page yields one, but fails with the
no-documents error when nothing remains. -/
theorem C9_robots_amended :
    (∀ (respectRobots : Bool) (ua : List Char) (rb : Option (List Char))
       (pageFetch : List Char → Except PyErr (List Char))
       (tid : Option (List Char)) (url : ScrapeUrl),
       checkRobotsTxt respectRobots ua rb url.path = false →
       urlScrapeFetchSingle respectRobots ua rb pageFetch tid url
         = .error (.fetchError ("URL disallowed by robots.txt: ".toList ++ url.full)))
    ∧ urlScrapeFetchSitemap true "rake-bot".toList (some robotsBlockedTxt) pageOkFetch none
        [blockedUrl, allowedUrl]
      = .ok [⟨[], "url_scrape".toList, some allowedUrl.full,
          "Some page content here.".toList, none⟩] := by
  constructor
  · intro respectRobots ua rb pageFetch tid url h
    simp [urlScrapeFetchSingle, h]
  · rfl

/-- C9, witness: the amended theorem applied to the concrete blocked URL
of the scenario. -/
theorem C9_robots_amended_witness :
    urlScrapeFetchSingle true "rake-bot".toList (some robotsBlockedTxt) pageOkFetch none
      blockedUrl
      = .error (.fetchError ("URL disallowed by robots.txt: ".toList ++ blockedUrl.full)) :=
  C9_robots_amended.1 true "rake-bot".toList (some robotsBlockedTxt) pageOkFetch none
    blockedUrl rfl

/-! ## C10 — documents cleaned to empty fail the Clean stage -/

/-- A document whose cleaned content is empty makes `cleanDocument` raise
the pydantic min-length error of `CleanedDocument`. -/
theorem cleanDocument_err_of_empty (cfg : CleanCfg) (tid : Option (List Char))
    (d : RawDocument) (h : cleanText cfg d.content = []) :
    cleanDocument cfg tid d
      = .error (.valueError "String should have at least 1 character".toList) := by
  simp [cleanDocument, mkCleanedDocument, h]

/-- C10.  If any document of the batch cleans to the empty string, the
`CleanedDocument` construction fails its non-empty-content validation, the
exception is caught by `CleanStage.execute`, and the whole batch fails
with a `CleanStageError` (second conjunct: the empty-content construction
itself is rejected). -/
theorem C10_empty_clean_fails_batch :
    (∀ (cfg : CleanCfg) (docs : List RawDocument) (tid : Option (List Char)),
       (∃ d ∈ docs, cleanText cfg d.content = []) →
       ∃ m, cleanStageExecute cfg docs tid = .error (.clean m))
    ∧ isOkE (mkCleanedDocument "doc-9".toList "url_scrape".toList [] 0 0 none) = false := by
  constructor
  · intro cfg docs tid
    induction docs with
    | nil =>
      rintro ⟨d, hd, _⟩
      cases hd
    | cons a t ih =>
      rintro ⟨d, hd, hclean⟩
      rcases List.mem_cons.mp hd with rfl | hdt
      · refine ⟨"Cleaning failed: ".toList ++
          "String should have at least 1 character".toList, ?_⟩
        simp [cleanStageExecute, mapExcept, cleanDocument_err_of_empty cfg tid d hclean,
          errStr]
      · cases hca : cleanDocument cfg tid a with
        | error e =>
          exact ⟨"Cleaning failed: ".toList ++ errStr e,
            by simp [cleanStageExecute, mapExcept, hca]⟩
        | ok b =>
          obtain ⟨m, hm⟩ := ih ⟨d, hdt, hclean⟩
          cases hmt : mapExcept (cleanDocument cfg tid) t with
          | ok l =>
            rw [cleanStageExecute, hmt] at hm
            simp at hm
          | error e0 =>
            exact ⟨"Cleaning failed: ".toList ++ errStr e0,
              by simp [cleanStageExecute, mapExcept, hca, hmt]⟩
  · rfl

/-- C10, witness: a batch holding one document that is nothing but a URL,
cleaned with URL removal enabled, fails the whole Clean stage. -/
theorem C10_empty_clean_fails_batch_witness :
    (∃ d ∈ [urlOnlyRaw], cleanText urlRemovalCfg d.content = []) ∧
    ∃ m, cleanStageExecute urlRemovalCfg [urlOnlyRaw] none = .error (.clean m) :=
  ⟨⟨urlOnlyRaw, by simp, by decide⟩,
    C10_empty_clean_fails_batch.1 urlRemovalCfg [urlOnlyRaw] none
      ⟨urlOnlyRaw, by simp, by decide⟩⟩

/-! ## C7 — idempotence of the clean transformation -/

theorem isSeg_refl (l : List Char) : IsSeg l l := ⟨[], [], by simp⟩

theorem isSeg_trans {t m l : List Char} (h1 : IsSeg t m) (h2 : IsSeg m l) :
    IsSeg t l := by
  obtain ⟨a, b, rfl⟩ := h1
  obtain ⟨c, d, rfl⟩ := h2
  exact ⟨c ++ a, b ++ d, by simp⟩

theorem isSeg_cons {t l : List Char} (c : Char) (h : IsSeg t l) :
    IsSeg t (c :: l) := by
  obtain ⟨a, b, rfl⟩ := h
  exact ⟨c :: a, b, rfl⟩

theorem isSeg_cons_elim {t l : List Char} {c : Char} (h : IsSeg t (c :: l)) :
    (∃ b, c :: l = t ++ b) ∨ IsSeg t l := by
  obtain ⟨a, b, hab⟩ := h
  cases a with
  | nil => exact Or.inl ⟨b, hab⟩
  | cons x a' =>
    rw [List.cons_append] at hab
    injection hab with hx hl
    exact Or.inr ⟨a', b, hl⟩

theorem mem_of_isSeg {t l : List Char} {c : Char} (hc : c ∈ t) (h : IsSeg t l) :
    c ∈ l := by
  obtain ⟨a, b, rfl⟩ := h
  simp [hc]

/-- Auxiliary: `(a :: l).getLast?` ignores the head when the tail is nonempty. -/
theorem getLast?_cons_ne_nil {l : List Char} (a : Char) (h : l ≠ []) :
    (a :: l).getLast? = l.getLast? := by
  cases l with
  | nil => exact absurd rfl h
  | cons x t => exact List.getLast?_cons_cons

/-- Auxiliary: the last element of an append with nonempty right part. -/
theorem getLast?_app (x r : List Char) (h : r ≠ []) :
    (x ++ r).getLast? = r.getLast? := by
  induction x with
  | nil => rfl
  | cons a x ih =>
    rw [List.cons_append, getLast?_cons_ne_nil a (by simp [h]), ih]

/-- `badPair` is exactly a search for a two-character segment in `P`. -/
theorem badPair_eq_false_iff (P : Char → Char → Bool) (l : List Char) :
    badPair P l = false ↔ ∀ c d, IsSeg [c, d] l → P c d = false := by
  induction l with
  | nil =>
    simp only [badPair, true_iff]
    rintro c d ⟨a, b, hab⟩
    have hl := congrArg List.length hab
    simp at hl
    omega
  | cons x t ih =>
    cases t with
    | nil =>
      simp only [badPair, true_iff]
      rintro c d ⟨a, b, hab⟩
      have := congrArg List.length hab
      simp at this
      omega
    | cons y t' =>
      constructor
      · intro h c d hseg
        rw [badPair] at h
        simp only [Bool.or_eq_false_iff] at h
        rcases isSeg_cons_elim hseg with ⟨b, hb⟩ | hseg'
        · injection hb with h1 hb'
          injection hb' with h2 _
          subst h1; subst h2
          exact h.1
        · exact (ih.mp h.2) c d hseg'
      · intro h
        rw [badPair]
        simp only [Bool.or_eq_false_iff]
        refine ⟨h x y ⟨[], t', rfl⟩, ih.mpr ?_⟩
        intro c d hseg
        exact h c d (isSeg_cons x hseg)

theorem badPair_mono {P : Char → Char → Bool} {t l : List Char}
    (h : badPair P l = false) (hs : IsSeg t l) : badPair P t = false := by
  rw [badPair_eq_false_iff] at h ⊢
  intro c d hcd
  exact h c d (isSeg_trans hcd hs)

theorem badPair_of_nomem {P : Char → Char → Bool} {l : List Char}
    (h : ∀ c ∈ l, ∀ d ∈ l, P c d = false) : badPair P l = false := by
  rw [badPair_eq_false_iff]
  rintro c d ⟨a, b, rfl⟩
  exact h c (by simp) d (by simp)

/-- Decomposing a two-character segment of an append. -/
theorem isSeg_two_append {c d : Char} {x y : List Char}
    (h : IsSeg [c, d] (x ++ y)) :
    IsSeg [c, d] x ∨ IsSeg [c, d] y ∨
      (x.getLast? = some c ∧ y.head? = some d) := by
  induction x with
  | nil => exact Or.inr (Or.inl (by simpa using h))
  | cons a x' ih =>
    rw [List.cons_append] at h
    rcases isSeg_cons_elim h with ⟨b, hb⟩ | hseg
    · injection hb with h1 hb'
      subst h1
      cases x' with
      | nil =>
        have hy : y = d :: b := by simpa using hb'
        exact Or.inr (Or.inr ⟨rfl, by rw [hy]; rfl⟩)
      | cons e x'' =>
        rw [List.cons_append] at hb'
        injection hb' with h2 _
        subst h2
        exact Or.inl ⟨[], x'', rfl⟩
    · rcases ih hseg with h1 | h2 | ⟨h3, h4⟩
      · exact Or.inl (isSeg_cons a h1)
      · exact Or.inr (Or.inl h2)
      · refine Or.inr (Or.inr ⟨?_, h4⟩)
        have hx' : x' ≠ [] := by
          intro he; rw [he] at h3; exact (by simp at h3 : False)
        rw [getLast?_cons_ne_nil a hx', h3]

theorem not_isSeg_cons_nil {x : Char} {t : List Char} : ¬ IsSeg (x :: t) [] := by
  rintro ⟨a, b, h⟩
  have hl := congrArg List.length h
  simp at hl
  omega

theorem getLast?_some_ne_nil {l : List Char} {c : Char}
    (h : l.getLast? = some c) : l ≠ [] := by
  cases l with
  | nil => exact absurd h (by simp)
  | cons x t => simp

theorem leadNL_nil : leadNL [] = 0 := rfl

theorem leadNL_cons_nl (t : List Char) : leadNL ('\n' :: t) = leadNL t + 1 := by
  simp [leadNL, List.takeWhile_cons]

theorem leadNL_cons_ne {c : Char} (t : List Char) (hc : c ≠ '\n') :
    leadNL (c :: t) = 0 := by
  simp [leadNL, List.takeWhile_cons, hc]

theorem leadNL_head (l : List Char) (h : 1 ≤ leadNL l) : ∃ b, l = '\n' :: b := by
  cases l with
  | nil => simp [leadNL] at h
  | cons c t =>
    by_cases hc : c = '\n'
    · exact ⟨t, by rw [hc]⟩
    · rw [leadNL_cons_ne t hc] at h; omega

theorem two_nl_of_leadNL (l : List Char) (h : 2 ≤ leadNL l) :
    ∃ b, l = '\n' :: '\n' :: b := by
  obtain ⟨b1, rfl⟩ := leadNL_head l (by omega)
  rw [leadNL_cons_nl] at h
  obtain ⟨b2, rfl⟩ := leadNL_head b1 (by omega)
  exact ⟨b2, rfl⟩

theorem three_nl_of_leadNL (l : List Char) (h : 3 ≤ leadNL l) :
    ∃ b, l = '\n' :: '\n' :: '\n' :: b := by
  obtain ⟨b1, rfl⟩ := leadNL_head l (by omega)
  rw [leadNL_cons_nl] at h
  obtain ⟨b2, rfl⟩ := two_nl_of_leadNL b1 (by omega)
  exact ⟨b2, rfl⟩

theorem no3_tail {c : Char} {w : List Char} (h : No3NL (c :: w)) : No3NL w :=
  fun hs => h (isSeg_cons c hs)

theorem no3_cons {c : Char} {w : List Char} (h : No3NL w)
    (hl : c = '\n' → leadNL w ≤ 1) : No3NL (c :: w) := by
  intro hs
  rcases isSeg_cons_elim hs with ⟨b, hb⟩ | hseg
  · injection hb with h1 hb'
    have h2 : leadNL w ≤ 1 := hl h1
    have hb2 : w = '\n' :: '\n' :: b := by simpa using hb'
    rw [hb2, leadNL_cons_nl, leadNL_cons_nl] at h2
    omega
  · exact h hseg

theorem leadNL_le_two_of_no3 {l : List Char} (h : No3NL l) : leadNL l ≤ 2 := by
  by_contra hc
  obtain ⟨b, rfl⟩ := three_nl_of_leadNL l (by omega)
  exact h ⟨[], b, rfl⟩

/-- The output of the newline collapse has no triple-newline run, and its
leading newline run respects the virtual prefix `pre`. -/
theorem collapseNLGo_no3 :
    ∀ (l : List Char) (pre : Nat), No3NL (collapseNLGo pre l) ∧
      leadNL (collapseNLGo pre l) + min pre 2 ≤ 2 := by
  intro l
  induction l with
  | nil =>
    intro pre
    refine ⟨not_isSeg_cons_nil, ?_⟩
    simp [collapseNLGo, leadNL]
  | cons c t ih =>
    intro pre
    by_cases hc : c = '\n'
    · subst hc
      by_cases hp : pre ≥ 2
      · rw [collapseNLGo, if_pos rfl, if_pos hp]
        obtain ⟨h1, h2⟩ := ih 2
        refine ⟨h1, ?_⟩
        omega
      · rw [collapseNLGo, if_pos rfl, if_neg hp]
        obtain ⟨h1, h2⟩ := ih (pre + 1)
        have hmin : min (pre + 1) 2 = pre + 1 := by omega
        rw [hmin] at h2
        refine ⟨no3_cons h1 (fun _ => by omega), ?_⟩
        rw [leadNL_cons_nl]
        omega
    · rw [collapseNLGo, if_neg hc]
      obtain ⟨h1, h2⟩ := ih 0
      refine ⟨no3_cons h1 (fun he => absurd he hc), ?_⟩
      rw [leadNL_cons_ne _ hc]
      omega

/-- A string with no triple-newline run is fixed by the newline collapse. -/
theorem collapseNLGo_fix :
    ∀ (l : List Char) (pre : Nat), pre + leadNL l ≤ 2 → No3NL l →
      collapseNLGo pre l = l := by
  intro l
  induction l with
  | nil => intro pre _ _; rfl
  | cons c t ih =>
    intro pre hlead h3
    by_cases hc : c = '\n'
    · subst hc
      rw [leadNL_cons_nl] at hlead
      rw [collapseNLGo, if_pos rfl, if_neg (by omega : ¬ pre ≥ 2)]
      rw [ih (pre + 1) (by omega) (no3_tail h3)]
    · rw [collapseNLGo, if_neg hc]
      rw [ih 0 (by simpa using leadNL_le_two_of_no3 (no3_tail h3)) (no3_tail h3)]

theorem collapseNLGo_zero_head (t : List Char) :
    (collapseNLGo 0 t).head? = t.head? := by
  cases t with
  | nil => rfl
  | cons c t' =>
    by_cases hc : c = '\n'
    · subst hc
      rw [collapseNLGo, if_pos rfl, if_neg (by omega : ¬ (0 : Nat) ≥ 2)]
      rfl
    · rw [collapseNLGo, if_neg hc]
      rfl

/-- Every head of the collapse output is the head of the input or follows a
newline in the input. -/
theorem collapseNLGo_head_src :
    ∀ (t : List Char) (pre : Nat) (d : Char),
      (collapseNLGo pre t).head? = some d →
      t.head? = some d ∨ IsSeg ['\n', d] t := by
  intro t
  induction t with
  | nil => intro pre d h; exact absurd h (by simp [collapseNLGo])
  | cons c t' ih =>
    intro pre d h
    by_cases hc : c = '\n'
    · subst hc
      by_cases hp : pre ≥ 2
      · rw [collapseNLGo, if_pos rfl, if_pos hp] at h
        rcases ih 2 d h with hh | hseg
        · cases t' with
          | nil => exact absurd hh (by simp)
          | cons y u =>
            have hy : y = d := by simpa using hh
            exact Or.inr ⟨[], u, by rw [hy]; rfl⟩
        · exact Or.inr (isSeg_cons '\n' hseg)
      · rw [collapseNLGo, if_pos rfl, if_neg hp] at h
        have hd : '\n' = d := Option.some.inj h
        exact Or.inl (by rw [← hd]; rfl)
    · rw [collapseNLGo, if_neg hc] at h
      have hd : c = d := Option.some.inj h
      exact Or.inl (by rw [← hd]; rfl)

/-- The collapse preserves the last character when it is not a newline. -/
theorem collapseNLGo_getLast :
    ∀ (l : List Char) (pre : Nat) (c : Char),
      l.getLast? = some c → c ≠ '\n' →
      (collapseNLGo pre l).getLast? = some c := by
  intro l
  induction l with
  | nil => intro pre c h _; exact absurd h (by simp)
  | cons x t ih =>
    intro pre c h hc
    cases t with
    | nil =>
      have hx : x = c := by simpa using h
      subst hx
      rw [collapseNLGo, if_neg hc]
      rfl
    | cons y t' =>
      rw [getLast?_cons_ne_nil x (by simp)] at h
      by_cases hx : x = '\n'
      · subst hx
        by_cases hp : pre ≥ 2
        · rw [collapseNLGo, if_pos rfl, if_pos hp]
          exact ih 2 c h hc
        · rw [collapseNLGo, if_pos rfl, if_neg hp]
          have hw := ih (pre + 1) c h hc
          rw [getLast?_cons_ne_nil '\n' (getLast?_some_ne_nil hw), hw]
      · rw [collapseNLGo, if_neg hx]
        have hw := ih 0 c h hc
        rw [getLast?_cons_ne_nil x (getLast?_some_ne_nil hw), hw]

/-- Every adjacent pair of the collapse output is an adjacent pair of the
input. -/
theorem isSeg_two_collapseNLGo :
    ∀ (l : List Char) (pre : Nat) {e f : Char},
      IsSeg [e, f] (collapseNLGo pre l) → IsSeg [e, f] l := by
  intro l
  induction l with
  | nil => intro pre e f h; exact absurd h (by simpa [collapseNLGo] using not_isSeg_cons_nil)
  | cons c t ih =>
    intro pre e f h
    by_cases hc : c = '\n'
    · subst hc
      by_cases hp : pre ≥ 2
      · rw [collapseNLGo, if_pos rfl, if_pos hp] at h
        exact isSeg_cons '\n' (ih 2 h)
      · rw [collapseNLGo, if_pos rfl, if_neg hp] at h
        rcases isSeg_cons_elim h with ⟨b, hb⟩ | hseg
        · injection hb with h1 hb'
          have hhead : (collapseNLGo (pre + 1) t).head? = some f := by
            rw [hb']; rfl
          rcases collapseNLGo_head_src t (pre + 1) f hhead with hh | hseg2
          · cases t with
            | nil => exact absurd hh (by simp)
            | cons y u =>
              have hy : y = f := by simpa using hh
              exact ⟨[], u, by rw [← h1, hy]; rfl⟩
          · rw [← h1]
            exact isSeg_cons '\n' hseg2
        · exact isSeg_cons '\n' (ih (pre + 1) hseg)
    · rw [collapseNLGo, if_neg hc] at h
      rcases isSeg_cons_elim h with ⟨b, hb⟩ | hseg
      · injection hb with h1 hb'
        have hhead : (collapseNLGo 0 t).head? = some f := by
          rw [hb']; rfl
        rw [collapseNLGo_zero_head] at hhead
        cases t with
        | nil => exact absurd hhead (by simp)
        | cons y u =>
          have hy : y = f := by simpa using hhead
          exact ⟨[], u, by rw [← h1, hy]; rfl⟩
      · exact isSeg_cons c (ih 0 hseg)

theorem badPair_collapseNLGo {P : Char → Char → Bool} {l : List Char}
    (pre : Nat) (h : badPair P l = false) :
    badPair P (collapseNLGo pre l) = false := by
  rw [badPair_eq_false_iff] at h ⊢
  intro c d hs
  exact h c d (isSeg_two_collapseNLGo l pre hs)

theorem mem_collapseNLGo {c : Char} :
    ∀ (l : List Char) (pre : Nat), c ∈ collapseNLGo pre l → c ∈ l := by
  intro l
  induction l with
  | nil => intro pre h; simp [collapseNLGo] at h
  | cons x t ih =>
    intro pre h
    by_cases hx : x = '\n'
    · subst hx
      by_cases hp : pre ≥ 2
      · rw [collapseNLGo, if_pos rfl, if_pos hp] at h
        exact List.mem_cons_of_mem _ (ih 2 h)
      · rw [collapseNLGo, if_pos rfl, if_neg hp] at h
        rcases List.mem_cons.mp h with h1 | h2
        · exact List.mem_cons.mpr (Or.inl h1)
        · exact List.mem_cons_of_mem _ (ih (pre + 1) h2)
    · rw [collapseNLGo, if_neg hx] at h
      rcases List.mem_cons.mp h with h1 | h2
      · exact List.mem_cons.mpr (Or.inl h1)
      · exact List.mem_cons_of_mem _ (ih 0 h2)

theorem badPair_tail {P : Char → Char → Bool} {x : Char} {t : List Char}
    (h : badPair P (x :: t) = false) : badPair P t = false :=
  badPair_mono h ⟨[x], [], by simp⟩

theorem badPair_cons_false {P : Char → Char → Bool} {x : Char} {w : List Char}
    (hw : badPair P w = false)
    (hx : ∀ d, w.head? = some d → P x d = false) :
    badPair P (x :: w) = false := by
  rw [badPair_eq_false_iff]
  intro c d hs
  rcases isSeg_cons_elim hs with ⟨b, hb⟩ | hseg
  · injection hb with h1 hb'
    subst h1
    have hw' : w = d :: b := by simpa using hb'
    exact hx d (by rw [hw']; rfl)
  · exact (badPair_eq_false_iff P w).mp hw c d hseg

/-- The space collapse leaves no adjacent pair of spaces, and after a
pending space its output does not begin with a space. -/
theorem collapseSpGo_out :
    ∀ (l : List Char) (b : Bool),
      badPair spPairP (collapseSpGo b l) = false ∧
        (b = true → (collapseSpGo b l).head? ≠ some ' ') := by
  intro l
  induction l with
  | nil => intro b; exact ⟨rfl, fun _ => by simp [collapseSpGo]⟩
  | cons c t ih =>
    intro b
    by_cases hc : c = ' '
    · subst hc
      cases b with
      | true =>
        rw [collapseSpGo, if_pos rfl, if_pos rfl]
        exact ih true
      | false =>
        rw [collapseSpGo, if_pos rfl, if_neg (by simp)]
        obtain ⟨hbp, hh⟩ := ih true
        refine ⟨badPair_cons_false hbp ?_, fun h => by simp at h⟩
        intro d hd
        by_cases hds : d = ' '
        · subst hds; exact absurd hd (hh rfl)
        · simp [spPairP, hds]
    · rw [collapseSpGo, if_neg hc]
      obtain ⟨hbp, _⟩ := ih false
      refine ⟨badPair_cons_false hbp ?_, ?_⟩
      · intro d _
        simp [spPairP, hc]
      · intro _ hh
        have : c = ' ' := by
          have h2 : some c = some ' ' := hh
          exact Option.some.inj h2
        exact hc this

/-- A string with no adjacent spaces (and, after a pending space, not
beginning with a space) is fixed by the space collapse. -/
theorem collapseSpGo_fix :
    ∀ (l : List Char) (b : Bool),
      badPair spPairP l = false → (b = true → l.head? ≠ some ' ') →
      collapseSpGo b l = l := by
  intro l
  induction l with
  | nil => intro b _ _; rfl
  | cons c t ih =>
    intro b hbp hh
    by_cases hc : c = ' '
    · subst hc
      cases b with
      | true => exact absurd rfl (hh rfl)
      | false =>
        rw [collapseSpGo, if_pos rfl, if_neg (by simp)]
        have hht : t.head? ≠ some ' ' := by
          intro hsp
          cases t with
          | nil => simp at hsp
          | cons y u =>
            have hy : y = ' ' := Option.some.inj hsp
            subst hy
            have := (badPair_eq_false_iff _ _).mp hbp ' ' ' ' ⟨[], u, rfl⟩
            simp [spPairP] at this
        rw [ih true (badPair_tail hbp) (fun _ => hht)]
    · rw [collapseSpGo, if_neg hc]
      rw [ih false (badPair_tail hbp) (by simp)]

theorem mem_collapseSpGo {c : Char} :
    ∀ (l : List Char) (b : Bool), c ∈ collapseSpGo b l → c ∈ l := by
  intro l
  induction l with
  | nil => intro b h; simp [collapseSpGo] at h
  | cons x t ih =>
    intro b h
    by_cases hx : x = ' '
    · subst hx
      cases b with
      | true =>
        rw [collapseSpGo, if_pos rfl, if_pos rfl] at h
        exact List.mem_cons_of_mem _ (ih true h)
      | false =>
        rw [collapseSpGo, if_pos rfl, if_neg (by simp)] at h
        rcases List.mem_cons.mp h with h1 | h2
        · exact List.mem_cons.mpr (Or.inl h1)
        · exact List.mem_cons_of_mem _ (ih true h2)
    · rw [collapseSpGo, if_neg hx] at h
      rcases List.mem_cons.mp h with h1 | h2
      · exact List.mem_cons.mpr (Or.inl h1)
      · exact List.mem_cons_of_mem _ (ih false h2)

/-! ## `pyStrip`: embedding, edges and fixpoints -/

theorem dropWhile_emb (p : Char → Bool) (l : List Char) :
    ∃ a, l = a ++ l.dropWhile p := by
  induction l with
  | nil => exact ⟨[], rfl⟩
  | cons c t ih =>
    by_cases hc : p c
    · rw [List.dropWhile_cons, if_pos hc]
      obtain ⟨a, ha⟩ := ih
      exact ⟨c :: a, by rw [List.cons_append, ← ha]⟩
    · rw [List.dropWhile_cons, if_neg hc]
      exact ⟨[], rfl⟩

theorem head_dropWhile {p : Char → Bool} {c : Char} :
    ∀ {l : List Char}, (l.dropWhile p).head? = some c → p c = false := by
  intro l
  induction l with
  | nil => intro h; simp at h
  | cons x t ih =>
    intro h
    by_cases hx : p x
    · rw [List.dropWhile_cons, if_pos hx] at h
      exact ih h
    · rw [List.dropWhile_cons, if_neg hx] at h
      have hxc : x = c := Option.some.inj h
      subst hxc
      exact Bool.not_eq_true _ ▸ by simpa using hx

/-- The stripped string occurs as a contiguous segment of the original. -/
theorem pyStrip_emb (l : List Char) : ∃ a b, l = a ++ (pyStrip l ++ b) := by
  obtain ⟨a, ha⟩ := dropWhile_emb isPyWs l
  obtain ⟨c, hc⟩ := dropWhile_emb isPyWs (l.dropWhile isPyWs).reverse
  refine ⟨a, c.reverse, ?_⟩
  have h2 : l.dropWhile isPyWs = pyStrip l ++ c.reverse := by
    have h3 := congrArg List.reverse hc
    simp only [List.reverse_reverse, List.reverse_append] at h3
    rw [pyStrip]
    exact h3
  conv_lhs => rw [ha, h2]

theorem pyStrip_head_not_ws {l : List Char} {c : Char}
    (h : (pyStrip l).head? = some c) : isPyWs c = false := by
  rw [pyStrip, List.head?_reverse] at h
  have hvne := getLast?_some_ne_nil h
  obtain ⟨a, ha⟩ := dropWhile_emb isPyWs (l.dropWhile isPyWs).reverse
  have h2 : (l.dropWhile isPyWs).reverse.getLast? = some c := by
    rw [ha, getLast?_app _ _ hvne]
    exact h
  rw [List.getLast?_reverse] at h2
  exact head_dropWhile h2

theorem pyStrip_getLast_not_ws {l : List Char} {c : Char}
    (h : (pyStrip l).getLast? = some c) : isPyWs c = false := by
  rw [pyStrip, List.getLast?_reverse] at h
  exact head_dropWhile h

/-- A string whose first and last characters are not whitespace is fixed
by `pyStrip`. -/
theorem pyStrip_eq_self {l : List Char}
    (hh : ∀ c, l.head? = some c → isPyWs c = false)
    (hl : ∀ c, l.getLast? = some c → isPyWs c = false) :
    pyStrip l = l := by
  have h1 : l.dropWhile isPyWs = l := by
    cases l with
    | nil => rfl
    | cons x t => rw [List.dropWhile_cons, if_neg (by simp [hh x rfl])]
  rw [pyStrip, h1]
  have h2 : l.reverse.dropWhile isPyWs = l.reverse := by
    cases hr : l.reverse with
    | nil => simp
    | cons x t =>
      rw [List.dropWhile_cons]
      have hx : l.getLast? = some x := by
        rw [← List.head?_reverse, hr]
        rfl
      rw [if_neg (by simp [hl x hx])]
  rw [h2, List.reverse_reverse]

/-! ## Line-ending normalization -/

theorem noCR_mapCRtoNL (l : List Char) : '\r' ∉ mapCRtoNL l := by
  intro h
  rw [mapCRtoNL] at h
  obtain ⟨x, _, hx⟩ := List.mem_map.mp h
  by_cases hxr : x = '\r'
  · rw [if_pos hxr] at hx
    exact absurd hx (by decide)
  · rw [if_neg hxr] at hx
    exact hxr hx

theorem mapCRtoNL_fix {l : List Char} (h : '\r' ∉ l) : mapCRtoNL l = l := by
  rw [mapCRtoNL]
  have : ∀ x ∈ l, (if x = '\r' then '\n' else x) = x := by
    intro x hx
    rw [if_neg (fun he => h (by rw [← he]; exact hx))]
  rw [List.map_congr_left this]
  exact List.map_id l

/-! ## `replaceCRLF`: characters and fixpoint -/

theorem replaceCRLF_cons_ne {c : Char} {t : List Char}
    (h : ¬(c = '\r' ∧ t.head? = some '\n')) :
    replaceCRLF (c :: t) = c :: replaceCRLF t := by
  rw [replaceCRLF.eq_def]
  split
  · rename_i t' heq
    injection heq with h1 h2
    exact absurd ⟨h1, by rw [h2]; rfl⟩ h
  · rename_i c2 t2 hno heq
    injection heq with h1 h2
    subst h1
    subst h2
    rfl
  · rename_i heq
    exact absurd heq (by simp)

theorem mem_replaceCRLF {c : Char} (l : List Char) (h : c ∈ replaceCRLF l) :
    c ∈ l := by
  induction l using replaceCRLF.induct with
  | case1 t ih =>
    have h2 : c ∈ '\n' :: replaceCRLF t := h
    rcases List.mem_cons.mp h2 with h3 | h4
    · subst h3; simp
    · simp [ih h4]
  | case2 d t hno ih =>
    rw [replaceCRLF_cons_ne ?side] at h
    case side =>
      rintro ⟨h1, h2⟩
      cases t with
      | nil => simp at h2
      | cons y u => exact hno u h1 (by rw [Option.some.inj h2])
    rcases List.mem_cons.mp h with h3 | h4
    · exact List.mem_cons.mpr (Or.inl h3)
    · exact List.mem_cons_of_mem _ (ih h4)
  | case3 =>
    have h2 : c ∈ ([] : List Char) := h
    simp at h2

theorem replaceCRLF_fix : ∀ {l : List Char}, '\r' ∉ l → replaceCRLF l = l := by
  intro l
  induction l using replaceCRLF.induct with
  | case1 t ih => intro h; exact absurd (by simp) h
  | case2 d t hno ih =>
    intro h
    rw [replaceCRLF_cons_ne ?side2, ih (fun hm => h (List.mem_cons_of_mem _ hm))]
    case side2 =>
      rintro ⟨h1, _⟩
      exact h (by rw [h1]; simp)
  | case3 => intro _; rfl

/-! ## `splitNL` and `stripLines` -/

theorem splitNL_cons_ne {c : Char} {t : List Char} (hc : c ≠ '\n')
    {q : List Char} {qs : List (List Char)} (hq : splitNL t = q :: qs) :
    splitNL (c :: t) = (c :: q) :: qs := by
  rw [splitNL.eq_def]
  split
  · rename_i heq
    exact absurd heq (by simp)
  · rename_i t' heq
    injection heq with h1 _
    exact absurd h1 hc
  · rename_i c2 t2 hno heq
    injection heq with h1 h2
    subst h1
    subst h2
    rw [hq]

theorem splitNL_nil : splitNL [] = [[]] := rfl

theorem splitNL_cons_nl (t : List Char) : splitNL ('\n' :: t) = [] :: splitNL t := rfl

theorem splitNL_ne_nil : ∀ l : List Char, splitNL l ≠ [] := by
  intro l
  induction l with
  | nil => simp [splitNL]
  | cons c t ih =>
    by_cases hc : c = '\n'
    · subst hc
      rw [splitNL_cons_nl]
      simp
    · cases hq : splitNL t with
      | nil => exact absurd hq ih
      | cons q qs =>
        rw [splitNL_cons_ne hc hq]
        simp

theorem splitNL_head_tail (t : List Char) :
    ∃ q qs, splitNL t = q :: qs := by
  cases hq : splitNL t with
  | nil => exact absurd hq (splitNL_ne_nil t)
  | cons q qs => exact ⟨q, qs, rfl⟩

theorem intercalate_one (x : List Char) : List.intercalate ['\n'] [x] = x := by
  simp [List.intercalate]

theorem intercalate_two (x y : List Char) (t : List (List Char)) :
    List.intercalate ['\n'] (x :: y :: t) =
      x ++ '\n' :: List.intercalate ['\n'] (y :: t) := by
  simp [List.intercalate, List.intersperse]

theorem join_splitNL : ∀ l : List Char, List.intercalate ['\n'] (splitNL l) = l := by
  intro l
  induction l with
  | nil => rw [splitNL_nil, intercalate_one]
  | cons c t ih =>
    obtain ⟨q, qs, hq⟩ := splitNL_head_tail t
    by_cases hc : c = '\n'
    · subst hc
      rw [splitNL_cons_nl, hq, intercalate_two, List.nil_append, ← hq, ih]
    · rw [splitNL_cons_ne hc hq]
      cases qs with
      | nil =>
        rw [intercalate_one]
        rw [hq, intercalate_one] at ih
        rw [ih]
      | cons y ys =>
        rw [intercalate_two]
        rw [hq, intercalate_two] at ih
        rw [List.cons_append, ih]

theorem splitNL_no_nl : ∀ {q : List Char}, '\n' ∉ q → splitNL q = [q] := by
  intro q
  induction q with
  | nil => intro _; rfl
  | cons c t ih =>
    intro h
    have hc : c ≠ '\n' := fun he => h (by rw [he]; simp)
    exact splitNL_cons_ne hc (ih (fun hm => h (List.mem_cons_of_mem _ hm)))

theorem splitNL_append_nl : ∀ {q : List Char} (r : List Char), '\n' ∉ q →
    splitNL (q ++ '\n' :: r) = q :: splitNL r := by
  intro q
  induction q with
  | nil => intro r _; rfl
  | cons c t ih =>
    intro r h
    have hc : c ≠ '\n' := fun he => h (by rw [he]; simp)
    rw [List.cons_append, splitNL_cons_ne hc (ih r (fun hm => h (List.mem_cons_of_mem _ hm)))]

theorem splitNL_join : ∀ (ps : List (List Char)) (q : List Char),
    (∀ p ∈ q :: ps, '\n' ∉ p) →
    splitNL (List.intercalate ['\n'] (q :: ps)) = q :: ps := by
  intro ps
  induction ps with
  | nil => intro q h; rw [intercalate_one]; exact splitNL_no_nl (h q (by simp))
  | cons y ys ih =>
    intro q h
    rw [intercalate_two, splitNL_append_nl _ (h q (by simp))]
    rw [ih y (fun p hp => h p (List.mem_cons_of_mem _ hp))]

theorem splitNL_pieces_no_nl : ∀ (l p : List Char), p ∈ splitNL l → '\n' ∉ p := by
  intro l
  induction l with
  | nil =>
    intro p hp
    have hp2 : p = [] := by simpa [splitNL] using hp
    subst hp2; simp
  | cons c t ih =>
    intro p hp
    by_cases hc : c = '\n'
    · subst hc
      rw [splitNL_cons_nl] at hp
      rcases List.mem_cons.mp hp with h1 | h2
      · subst h1; simp
      · exact ih p h2
    · obtain ⟨q, qs, hq⟩ := splitNL_head_tail t
      rw [splitNL_cons_ne hc hq] at hp
      rcases List.mem_cons.mp hp with h1 | h2
      · subst h1
        intro hm
        rcases List.mem_cons.mp hm with h3 | h4
        · exact hc h3.symm
        · exact ih q (by rw [hq]; simp) h4
      · exact ih p (by rw [hq]; exact List.mem_cons_of_mem _ h2)

theorem splitNL_piece_emb : ∀ (l p : List Char), p ∈ splitNL l → IsSeg p l := by
  intro l
  induction l with
  | nil =>
    intro p hp
    have hp2 : p = [] := by simpa [splitNL] using hp
    subst hp2
    exact ⟨[], [], rfl⟩
  | cons c t ih =>
    intro p hp
    by_cases hc : c = '\n'
    · subst hc
      rw [splitNL_cons_nl] at hp
      rcases List.mem_cons.mp hp with h1 | h2
      · subst h1; exact ⟨[], '\n' :: t, rfl⟩
      · exact isSeg_cons '\n' (ih p h2)
    · obtain ⟨q, qs, hq⟩ := splitNL_head_tail t
      rw [splitNL_cons_ne hc hq] at hp
      rcases List.mem_cons.mp hp with h1 | h2
      · subst h1
        have hj := join_splitNL t
        rw [hq] at hj
        cases qs with
        | nil =>
          rw [intercalate_one] at hj
          exact ⟨[], [], by rw [hj]; simp⟩
        | cons y ys =>
          rw [intercalate_two] at hj
          exact ⟨[], '\n' :: List.intercalate ['\n'] (y :: ys), by rw [← hj]; rfl⟩
      · exact isSeg_cons c (ih p (by rw [hq]; exact List.mem_cons_of_mem _ h2))

theorem mem_intercalate_nl {c : Char} : ∀ (ps : List (List Char)),
    c ∈ List.intercalate ['\n'] ps → c = '\n' ∨ ∃ p ∈ ps, c ∈ p := by
  intro ps
  induction ps with
  | nil => intro h; simp [List.intercalate] at h
  | cons q ps ih =>
    cases ps with
    | nil =>
      intro h
      rw [intercalate_one] at h
      exact Or.inr ⟨q, by simp, h⟩
    | cons y ys =>
      intro h
      rw [intercalate_two] at h
      rcases List.mem_append.mp h with h1 | h2
      · exact Or.inr ⟨q, by simp, h1⟩
      · rcases List.mem_cons.mp h2 with h3 | h4
        · exact Or.inl h3
        · rcases ih h4 with h5 | ⟨p, hp, hcp⟩
          · exact Or.inl h5
          · exact Or.inr ⟨p, List.mem_cons_of_mem _ hp, hcp⟩

theorem stripLines_eq_self {l : List Char} (h : LinesStripped l) :
    stripLines l = l := by
  rw [stripLines]
  have h2 : (splitNL l).map pyStrip = (splitNL l).map id := List.map_congr_left h
  rw [h2, List.map_id, join_splitNL]

theorem isPyWs_of_nws_false {c : Char} (h : nwsChar c = false) (hc : c ≠ '\n') :
    isPyWs c = false := by
  simp [nwsChar, hc] at h
  exact h

theorem nws_of_ws_false {c : Char} (h : isPyWs c = false) : nwsChar c = false := by
  simp [nwsChar, h]

theorem wsNl_last (c : Char) : wsNlPairP c '\n' = nwsChar c := by
  simp [wsNlPairP, nwsChar]

theorem wsNl_head (c : Char) : wsNlPairP '\n' c = nwsChar c := by
  simp [wsNlPairP, nwsChar]

theorem head?_mem {l : List Char} {c : Char} (h : l.head? = some c) : c ∈ l := by
  cases l with
  | nil => simp at h
  | cons x t =>
    have hx : x = c := Option.some.inj h
    subst hx
    simp

/-- The whereabouts of the first newline. -/
theorem split_first_nl : ∀ l : List Char,
    '\n' ∉ l ∨ ∃ q r, l = q ++ '\n' :: r ∧ '\n' ∉ q := by
  intro l
  induction l with
  | nil => exact Or.inl (by simp)
  | cons c t ih =>
    by_cases hc : c = '\n'
    · subst hc; exact Or.inr ⟨[], t, rfl, by simp⟩
    · rcases ih with h1 | ⟨q, r, hqr, hqn⟩
      · refine Or.inl ?_
        intro hm
        rcases List.mem_cons.mp hm with h2 | h3
        · exact hc h2.symm
        · exact h1 h3
      · refine Or.inr ⟨c :: q, r, by rw [hqr]; rfl, ?_⟩
        intro hm
        rcases List.mem_cons.mp hm with h2 | h3
        · exact hc h2.symm
        · exact hqn h3

/-- A string whose scan shows no strippable whitespace adjacent to a
newline, and whose ends are not strippable whitespace, has every line
stripped. -/
theorem ls_of_scan : ∀ (n : Nat) (l : List Char), l.length ≤ n →
    badPair wsNlPairP l = false →
    (∀ c, l.head? = some c → nwsChar c = false) →
    (∀ c, l.getLast? = some c → nwsChar c = false) →
    LinesStripped l := by
  intro n
  induction n with
  | zero =>
    intro l hl _ _ _
    have hnil : l = [] := List.length_eq_zero.mp (Nat.le_zero.mp hl)
    subst hnil
    intro p hp
    rw [splitNL_nil] at hp
    have hp2 : p = [] := by simpa using hp
    subst hp2
    rfl
  | succ n ih =>
    intro l hl hbp hh hlast
    rcases split_first_nl l with hno | ⟨q, r, hqr, hqn⟩
    · -- no newline at all: the only line is l itself
      intro p hp
      rw [splitNL_no_nl hno] at hp
      have hp2 : p = l := by simpa using hp
      subst hp2
      apply pyStrip_eq_self
      · intro c hc
        exact isPyWs_of_nws_false (hh c hc) (fun he => hno (he ▸ head?_mem hc))
      · intro c hc
        refine isPyWs_of_nws_false (hlast c hc) (fun he => hno ?_)
        obtain ⟨q', hq'⟩ := List.getLast?_eq_some_iff.mp hc
        rw [hq', ← he]
        simp
    · -- l = q ++ '\n' :: r with '\n' ∉ q
      have hqstrip : pyStrip q = q := by
        apply pyStrip_eq_self
        · intro c hc
          have hcne : c ≠ '\n' := fun he => hqn (he ▸ head?_mem hc)
          refine isPyWs_of_nws_false (hh c ?_) hcne
          cases hq : q with
          | nil => rw [hq] at hc; simp at hc
          | cons a u =>
            rw [hq] at hc
            have ha : a = c := Option.some.inj hc
            subst ha
            rw [hqr, hq]
            rfl
        · intro c hc
          obtain ⟨q', hq'⟩ := List.getLast?_eq_some_iff.mp hc
          have hseg : IsSeg [c, '\n'] l := by
            refine ⟨q', r, ?_⟩
            rw [hqr, hq']
            simp
          have hp := (badPair_eq_false_iff _ _).mp hbp c '\n' hseg
          rw [wsNl_last] at hp
          have hcne : c ≠ '\n' := fun he => hqn (by rw [hq', ← he]; simp)
          exact isPyWs_of_nws_false hp hcne
      have hrec : LinesStripped r := by
        apply ih r
        · have hlen := congrArg List.length hqr
          simp at hlen
          omega
        · exact badPair_mono hbp ⟨q ++ ['\n'], [], by rw [hqr]; simp⟩
        · intro c hc
          cases hr : r with
          | nil => rw [hr] at hc; simp at hc
          | cons a u =>
            rw [hr] at hc
            have ha : a = c := Option.some.inj hc
            subst ha
            have hseg : IsSeg ['\n', a] l := ⟨q, u, by rw [hqr, hr]; rfl⟩
            have hp := (badPair_eq_false_iff _ _).mp hbp '\n' a hseg
            rw [wsNl_head] at hp
            exact hp
        · intro c hc
          apply hlast c
          have hre : r ≠ [] := getLast?_some_ne_nil hc
          rw [hqr, (by simp : q ++ '\n' :: r = (q ++ ['\n']) ++ r), getLast?_app _ _ hre]
          exact hc
      intro p hp
      rw [hqr] at hp
      rw [splitNL_append_nl r hqn] at hp
      rcases List.mem_cons.mp hp with h1 | h2
      · rw [h1]; exact hqstrip
      · exact hrec p h2

theorem pyStrip_isSeg (l : List Char) : IsSeg (pyStrip l) l := pyStrip_emb l

/-! ## Pair scans across `stripLines` -/

theorem head_intercalate_nl : ∀ (y : List Char) (ys : List (List Char)) (d : Char),
    (List.intercalate ['\n'] (y :: ys)).head? = some d →
    y.head? = some d ∨ d = '\n' := by
  intro y ys d h
  cases y with
  | nil =>
    cases ys with
    | nil => rw [intercalate_one] at h; simp at h
    | cons z zs =>
      rw [intercalate_two] at h
      have : '\n' = d := Option.some.inj h
      exact Or.inr this.symm
  | cons a y' =>
    cases ys with
    | nil =>
      rw [intercalate_one] at h
      exact Or.inl h
    | cons z zs =>
      rw [intercalate_two] at h
      exact Or.inl h

theorem badPair_intercalate {P : Char → Char → Bool} (hnn : P '\n' '\n' = false) :
    ∀ (ps : List (List Char)) (q : List Char),
      (∀ p ∈ q :: ps, badPair P p = false) →
      (∀ p ∈ q :: ps, ∀ c, p.getLast? = some c → P c '\n' = false) →
      (∀ p ∈ q :: ps, ∀ c, p.head? = some c → P '\n' c = false) →
      badPair P (List.intercalate ['\n'] (q :: ps)) = false := by
  intro ps
  induction ps with
  | nil => intro q h1 _ _; rw [intercalate_one]; exact h1 q (by simp)
  | cons y ys ih =>
    intro q h1 h2 h3
    rw [intercalate_two]
    rw [badPair_eq_false_iff]
    intro c d hs
    rcases isSeg_two_append hs with hA | hB | ⟨hc1, hd1⟩
    · exact (badPair_eq_false_iff _ _).mp (h1 q (by simp)) c d hA
    · rcases isSeg_cons_elim hB with ⟨b, hb⟩ | hseg
      · injection hb with hcc hrest
        have hhead : (List.intercalate ['\n'] (y :: ys)).head? = some d := by
          rw [hrest]
          rfl
        rcases head_intercalate_nl y ys d hhead with hy | hdn
        · rw [← hcc]
          exact h3 y (by simp) d hy
        · rw [← hcc, hdn]
          exact hnn
      · have hI := ih y (fun p hp => h1 p (List.mem_cons_of_mem _ hp))
          (fun p hp => h2 p (List.mem_cons_of_mem _ hp))
          (fun p hp => h3 p (List.mem_cons_of_mem _ hp))
        exact (badPair_eq_false_iff _ _).mp hI c d hseg
    · have hdn : d = '\n' := (Option.some.inj hd1).symm
      subst hdn
      exact h2 q (by simp) c hc1

theorem mem_map_stripLines {w : List Char} {p : List Char}
    (hp : p ∈ (splitNL w).map pyStrip) :
    ∃ p0 ∈ splitNL w, pyStrip p0 = p := by
  obtain ⟨p0, hp0, hpe⟩ := List.mem_map.mp hp
  exact ⟨p0, hp0, hpe⟩

theorem stripLines_badPair_sp {w : List Char} (h : badPair spPairP w = false) :
    badPair spPairP (stripLines w) = false := by
  rw [stripLines]
  obtain ⟨q0, qs0, hq0⟩ := splitNL_head_tail w
  rw [hq0, List.map_cons]
  apply badPair_intercalate (by simp [spPairP]) (qs0.map pyStrip) (pyStrip q0)
  · intro p hp
    rw [← List.map_cons, ← hq0] at hp
    obtain ⟨p0, hp0, hpe⟩ := mem_map_stripLines hp
    rw [← hpe]
    exact badPair_mono h (isSeg_trans (pyStrip_isSeg p0) (splitNL_piece_emb w p0 hp0))
  · intro p _ c _
    simp [spPairP]
  · intro p _ c _
    simp [spPairP]

theorem stripLines_badPair_wsnl (w : List Char) :
    badPair wsNlPairP (stripLines w) = false := by
  rw [stripLines]
  obtain ⟨q0, qs0, hq0⟩ := splitNL_head_tail w
  rw [hq0, List.map_cons]
  apply badPair_intercalate (by rw [wsNl_last]; simp [nwsChar]) (qs0.map pyStrip) (pyStrip q0)
  · intro p hp
    rw [← List.map_cons, ← hq0] at hp
    obtain ⟨p0, hp0, hpe⟩ := mem_map_stripLines hp
    have hnl : '\n' ∉ p := by
      intro hm
      apply splitNL_pieces_no_nl w p0 hp0
      exact mem_of_isSeg (by rw [hpe]; exact hm) (pyStrip_isSeg p0)
    apply badPair_of_nomem
    intro c hc d hd
    have hcne : ¬ c = '\n' := fun he => hnl (he ▸ hc)
    have hdne : ¬ d = '\n' := fun he => hnl (he ▸ hd)
    simp [wsNlPairP, hcne, hdne]
  · intro p hp c hc
    rw [← List.map_cons, ← hq0] at hp
    obtain ⟨p0, _, hpe⟩ := mem_map_stripLines hp
    rw [← hpe] at hc
    rw [wsNl_last]
    exact nws_of_ws_false (pyStrip_getLast_not_ws hc)
  · intro p hp c hc
    rw [← List.map_cons, ← hq0] at hp
    obtain ⟨p0, _, hpe⟩ := mem_map_stripLines hp
    rw [← hpe] at hc
    rw [wsNl_head]
    exact nws_of_ws_false (pyStrip_head_not_ws hc)

theorem mem_stripLines {c : Char} {w : List Char} (h : c ∈ stripLines w) :
    c ∈ w ∨ c = '\n' := by
  rw [stripLines] at h
  rcases mem_intercalate_nl _ h with h1 | ⟨p, hp, hcp⟩
  · exact Or.inr h1
  · obtain ⟨p0, hp0, hpe⟩ := mem_map_stripLines hp
    refine Or.inl (mem_of_isSeg (mem_of_isSeg ?_ (pyStrip_isSeg p0))
      (splitNL_piece_emb w p0 hp0))
    rw [hpe]
    exact hcp

/-! ## Assembly: the clean pipeline is idempotent after one pass -/

theorem collapseNL_fix {z : List Char} (h3 : No3NL z) : collapseNL z = z := by
  rw [collapseNL]
  exact collapseNLGo_fix z 0 (by simpa using leadNL_le_two_of_no3 h3) h3

theorem collapseSp_fix {z : List Char} (hsp : badPair spPairP z = false) :
    collapseSp z = z := by
  rw [collapseSp]
  exact collapseSpGo_fix z false hsp (by intro h; simp at h)

theorem stripLines_fix {z : List Char}
    (hws : badPair wsNlPairP z = false)
    (hh : ∀ c, z.head? = some c → isPyWs c = false)
    (hl : ∀ c, z.getLast? = some c → isPyWs c = false) :
    stripLines z = z :=
  stripLines_eq_self (ls_of_scan z.length z le_rfl hws
    (fun c hc => nws_of_ws_false (hh c hc))
    (fun c hc => nws_of_ws_false (hl c hc)))

/-- The scan facts holding for every output of the whitespace-normalizing
clean pipeline (no URL or email removal). -/
theorem cleanNW_facts (x : List Char) :
    ∀ y, y = pyStrip (stripLines (collapseSp (collapseNL (mapCRtoNL (replaceCRLF x))))) →
    '\r' ∉ y ∧ badPair spPairP y = false ∧ badPair wsNlPairP y = false ∧
      (∀ c, y.head? = some c → isPyWs c = false) ∧
      (∀ c, y.getLast? = some c → isPyWs c = false) := by
  intro y hy
  subst hy
  refine ⟨?_, ?_, ?_, ?_, ?_⟩
  · intro hm
    have hm3 := mem_of_isSeg hm (pyStrip_isSeg _)
    rcases mem_stripLines hm3 with hm2 | hne
    · rw [collapseSp] at hm2
      have hm1 := mem_collapseSpGo _ false hm2
      rw [collapseNL] at hm1
      have hm0 := mem_collapseNLGo _ 0 hm1
      exact noCR_mapCRtoNL _ hm0
    · exact absurd hne (by decide)
  · exact badPair_mono (stripLines_badPair_sp (by rw [collapseSp]; exact (collapseSpGo_out _ false).1))
      (pyStrip_isSeg _)
  · exact badPair_mono (stripLines_badPair_wsnl _) (pyStrip_isSeg _)
  · exact fun c hc => pyStrip_head_not_ws hc
  · exact fun c hc => pyStrip_getLast_not_ws hc

/-- The scan facts transport from a string to its newline collapse, which
additionally has no triple-newline run. -/
theorem cleanNW_z_facts {y : List Char}
    (hcr : '\r' ∉ y)
    (hsp : badPair spPairP y = false)
    (hws : badPair wsNlPairP y = false)
    (hh : ∀ c, y.head? = some c → isPyWs c = false)
    (hl : ∀ c, y.getLast? = some c → isPyWs c = false) :
    '\r' ∉ collapseNL y ∧ No3NL (collapseNL y) ∧
      badPair spPairP (collapseNL y) = false ∧
      badPair wsNlPairP (collapseNL y) = false ∧
      (∀ c, (collapseNL y).head? = some c → isPyWs c = false) ∧
      (∀ c, (collapseNL y).getLast? = some c → isPyWs c = false) := by
  refine ⟨?_, ?_, ?_, ?_, ?_, ?_⟩
  · intro hm
    rw [collapseNL] at hm
    exact hcr (mem_collapseNLGo _ 0 hm)
  · rw [collapseNL]
    exact (collapseNLGo_no3 y 0).1
  · rw [collapseNL]
    exact badPair_collapseNLGo 0 hsp
  · rw [collapseNL]
    exact badPair_collapseNLGo 0 hws
  · intro c hc
    rw [collapseNL, collapseNLGo_zero_head] at hc
    exact hh c hc
  · intro c hc
    cases hyl : y.getLast? with
    | none =>
      have hynil : y = [] := List.getLast?_eq_none_iff.mp hyl
      subst hynil
      rw [collapseNL] at hc
      simp [collapseNLGo] at hc
    | some d =>
      have hdw : isPyWs d = false := hl d hyl
      have hdne : d ≠ '\n' := fun he => by
        rw [he] at hdw
        exact absurd hdw (by decide)
      have hz := collapseNLGo_getLast y 0 d hyl hdne
      rw [collapseNL, hz] at hc
      have hdc : d = c := Option.some.inj hc
      rw [← hdc]
      exact hdw

/-- Any string enjoying all the scan facts is a fixpoint of the
whitespace-normalizing clean pipeline. -/
theorem cleanNW_fix {z : List Char}
    (hcr : '\r' ∉ z) (h3 : No3NL z)
    (hsp : badPair spPairP z = false)
    (hws : badPair wsNlPairP z = false)
    (hh : ∀ c, z.head? = some c → isPyWs c = false)
    (hl : ∀ c, z.getLast? = some c → isPyWs c = false) :
    pyStrip (stripLines (collapseSp (collapseNL (mapCRtoNL (replaceCRLF z))))) = z := by
  rw [replaceCRLF_fix hcr, mapCRtoNL_fix hcr, collapseNL_fix h3,
    collapseSp_fix hsp, stripLines_fix hws hh hl, pyStrip_eq_self hh hl]

/-- The second pass of the whitespace-normalizing pipeline only collapses
the newline runs that line stripping may have produced. -/
theorem cleanNW_pass2 {y : List Char}
    (hcr : '\r' ∉ y)
    (hsp : badPair spPairP y = false)
    (hws : badPair wsNlPairP y = false)
    (hh : ∀ c, y.head? = some c → isPyWs c = false)
    (hl : ∀ c, y.getLast? = some c → isPyWs c = false) :
    pyStrip (stripLines (collapseSp (collapseNL (mapCRtoNL (replaceCRLF y))))) =
      collapseNL y := by
  obtain ⟨_, _, hz_sp, hz_ws, hz_h, hz_l⟩ := cleanNW_z_facts hcr hsp hws hh hl
  rw [replaceCRLF_fix hcr, mapCRtoNL_fix hcr, collapseSp_fix hz_sp,
    stripLines_fix hz_ws hz_h hz_l, pyStrip_eq_self hz_h hz_l]

theorem cleanText_nw_true_23 (nu : Bool) (n : Nat) (s : List Char) :
    cleanText ⟨false, false, true, nu, n⟩
        (cleanText ⟨false, false, true, nu, n⟩ (cleanText ⟨false, false, true, nu, n⟩ s)) =
      cleanText ⟨false, false, true, nu, n⟩ (cleanText ⟨false, false, true, nu, n⟩ s) := by
  have hform : ∀ x : List Char, cleanText ⟨false, false, true, nu, n⟩ x =
      pyStrip (stripLines (collapseSp (collapseNL (mapCRtoNL (replaceCRLF x))))) :=
    fun _ => rfl
  obtain ⟨f1, f2, f3, f4, f5⟩ :=
    cleanNW_facts s (cleanText ⟨false, false, true, nu, n⟩ s) (hform s)
  obtain ⟨g1, g2, g3, g4, g5, g6⟩ := cleanNW_z_facts f1 f2 f3 f4 f5
  rw [hform (cleanText ⟨false, false, true, nu, n⟩ s), cleanNW_pass2 f1 f2 f3 f4 f5]
  rw [hform (collapseNL (cleanText ⟨false, false, true, nu, n⟩ s))]
  exact cleanNW_fix g1 g2 g3 g4 g5 g6

/-- Without whitespace normalization the pipeline is idempotent outright. -/
theorem cleanText_nw_false_idem (nu : Bool) (n : Nat) (s : List Char) :
    cleanText ⟨false, false, false, nu, n⟩ (cleanText ⟨false, false, false, nu, n⟩ s) =
      cleanText ⟨false, false, false, nu, n⟩ s := by
  have hform : ∀ x : List Char, cleanText ⟨false, false, false, nu, n⟩ x =
      pyStrip (collapseNL (mapCRtoNL (replaceCRLF x))) :=
    fun _ => rfl
  rw [hform s, hform (pyStrip (collapseNL (mapCRtoNL (replaceCRLF s))))]
  have hcr : '\r' ∉ pyStrip (collapseNL (mapCRtoNL (replaceCRLF s))) := by
    intro hm
    have hm1 := mem_of_isSeg hm (pyStrip_isSeg _)
    rw [collapseNL] at hm1
    exact noCR_mapCRtoNL _ (mem_collapseNLGo _ 0 hm1)
  have h3 : No3NL (pyStrip (collapseNL (mapCRtoNL (replaceCRLF s)))) := by
    intro hs
    exact (by rw [collapseNL]; exact (collapseNLGo_no3 (mapCRtoNL (replaceCRLF s)) 0).1 :
        No3NL (collapseNL (mapCRtoNL (replaceCRLF s))))
      (isSeg_trans hs (pyStrip_isSeg _))
  rw [replaceCRLF_fix hcr, mapCRtoNL_fix hcr, collapseNL_fix h3,
    pyStrip_eq_self (fun c hc => pyStrip_head_not_ws hc)
      (fun c hc => pyStrip_getLast_not_ws hc)]

/-- C7 (corrected): with URL and email removal off — in particular for the
default and the all-normalization configurations — the clean transformation
is idempotent from the second application on: a third application changes
nothing.  Without whitespace normalization it is idempotent outright, which
the `nw = false` branch uses. -/
theorem C7_clean_idempotence_amended (nw nu : Bool) (n : Nat) (s : List Char) :
    cleanText ⟨false, false, nw, nu, n⟩
        (cleanText ⟨false, false, nw, nu, n⟩ (cleanText ⟨false, false, nw, nu, n⟩ s)) =
      cleanText ⟨false, false, nw, nu, n⟩ (cleanText ⟨false, false, nw, nu, n⟩ s) := by
  cases nw with
  | true => exact cleanText_nw_true_23 nu n s
  | false => exact cleanText_nw_false_idem nu n (cleanText ⟨false, false, false, nu, n⟩ s)

/-- C7 (refuted as stated): under the default configuration, cleaning the
string `"a\n\n \n\nb"` once yields `"a\n\n\n\nb"` — line stripping blanks
the middle whitespace-only line after the newline collapse already ran —
and cleaning a second time collapses the new four-newline run to
`"a\n\nb"`, so clean ∘ clean ≠ clean. -/
theorem C7_clean_idempotence_counterexample :
    cleanText defaultCleanCfg ("a\n\n \n\nb".toList) = "a\n\n\n\nb".toList ∧
    cleanText defaultCleanCfg (cleanText defaultCleanCfg ("a\n\n \n\nb".toList)) =
      "a\n\nb".toList ∧
    cleanText defaultCleanCfg (cleanText defaultCleanCfg ("a\n\n \n\nb".toList)) ≠
      cleanText defaultCleanCfg ("a\n\n \n\nb".toList) := by
  refine ⟨by decide, by decide, by decide⟩

end Rake
